import Mathlib

/-!
# Verification of the moonsimdata content-pipeline scripts

This file gives a shallow embedding, in Lean 4, of the parts of the
`moonsimdata` repository that the specification makes claims about:

* the text helpers of `character_wide_cards/create_left_side_of_wide_character_card.py`
  (`normalize_quotes`, `norm_key`, `wrap_text`, `ensure_period`,
  `parse_yaml_outcome`, the ability classification of
  `layout_and_draw_abilities`, its `measure` pass, its drawing pass and its
  auto-shrink loop);
* the signature-move damage table of
  `character_wide_cards/create_wide_character_card.v4.py`
  (`draw_signature_move_card`);
* the terrain-editor Flask handlers of `terrain-editor/app/main.py`
  (`load_config`, `save_overlay`, `get_overlay`).

Python strings are modelled as `List Char`.  Pillow font objects are
modelled by their determining parameters (`size`, `bold`, `italic`), and
Pillow's `draw.textbbox((0, 0), text, font)` measurement is modelled by an
arbitrary function `Metrics : List Char → Font → BBox`, so every theorem
about the layout code is parametric in the font metrics exactly as the code
is parametric in the fonts installed on the host.  Python `int` values are
modelled as `Int`; measured coordinates are `Int`.  `str.lower()` is
modelled by ASCII lowering (`Char.toLower`), and Python whitespace by the
common whitespace characters listed in `pyWS`.
-/

namespace Moonsim

/-- Python strings, modelled as lists of characters. -/
abbrev Str := List Char

/-- Whitespace recognised by Python's `str.strip` / `re` `\s`
(space, tab, newline, carriage return, vertical tab, form feed,
next-line and no-break space). -/
def pyWS (c : Char) : Bool :=
  c.toNat = 32 || c.toNat = 9 || c.toNat = 10 || c.toNat = 13 ||
  c.toNat = 11 || c.toNat = 12 || c.toNat = 133 || c.toNat = 160

/-- Drop leading whitespace: Python `str.lstrip()`. -/
def pyLstrip (s : Str) : Str := s.dropWhile pyWS

/-- Drop trailing whitespace: Python `str.rstrip()`. -/
def pyRstrip (s : Str) : Str := (s.reverse.dropWhile pyWS).reverse

/-- Python `str.strip()`. -/
def pyStrip (s : Str) : Str := pyRstrip (pyLstrip s)

/-- One step of the character-for-character replacements performed by
`normalize_quotes` (create_left_side_of_wide_character_card.py, lines
186-196): curly double quotes to `"`, curly single quotes to `'`,
en/em dash to `-`, no-break space to a plain space.  Every replacement of
the source is of a single character by a single character, so the whole
function is a character map. -/
def normChar (c : Char) : Char :=
  if c = '“' then '"'
  else if c = '”' then '"'
  else if c = '‘' then '\''
  else if c = '’' then '\''
  else if c = '–' then '-'
  else if c = '—' then '-'
  else if c = '\u00a0' then ' '
  else c

/-- `normalize_quotes` from create_left_side_of_wide_character_card.py. -/
def normalize_quotes (s : Str) : Str := s.map normChar

/-- The characters removed by `norm_key`'s `re.sub(r"[\"'“”‘’]", "", s)`. -/
def isQuoteCh (c : Char) : Bool :=
  c.toNat = 34 || c.toNat = 39 || c.toNat = 8220 || c.toNat = 8221 ||
  c.toNat = 8216 || c.toNat = 8217

/-- Whitespace-run collapsing, `re.sub(r"\s+", " ", s)`: every maximal run
of whitespace becomes a single space.  `inRun` records whether the
previously seen character was whitespace. -/
def collapseGo : Bool → Str → Str
  | _, [] => []
  | inRun, c :: rest =>
    if pyWS c then
      if inRun then collapseGo true rest else ' ' :: collapseGo true rest
    else c :: collapseGo false rest

/-- `re.sub(r"\s+", " ", s)` as used by `norm_key`. -/
def collapseWS (s : Str) : Str := collapseGo false s

/-- Python `str.lower()` restricted to ASCII (the repository's ability
names are ASCII). -/
def lowerPy (s : Str) : Str := s.map Char.toLower

/-- `norm_key` from create_left_side_of_wide_character_card.py, lines
199-203:
`s = normalize_quotes(s or "").strip().lower()`;
`s = re.sub(r"[\"'“”‘’]", "", s)`;
`s = re.sub(r"\s+", " ", s)`. -/
def norm_key (s : Str) : Str :=
  collapseWS ((lowerPy (pyStrip (normalize_quotes s))).filter (fun c => !isQuoteCh c))

/-- Canonical form of a quote character: curly double quotes become `"`,
curly single quotes become `'`; anything else is unchanged.  Two strings
"differ only in curly versus straight quote characters" exactly when their
images under `quoteCanon` agree. -/
def quoteCanon (c : Char) : Char :=
  if c = '“' then '"'
  else if c = '”' then '"'
  else if c = '‘' then '\''
  else if c = '’' then '\''
  else c

/-! ## Fonts and text metrics

`get_font(size, bold, italic)` deterministically picks a font face from the
triple of its arguments (the fallback chain depends only on the host's
installed fonts), so a font is modelled by that triple.  A bounding box
`draw.textbbox((0, 0), text, font)` is a quadruple `(x0, y0, x1, y1)`. -/

/-- A Pillow font, determined by the arguments of `get_font`. -/
structure Font where
  size : Nat
  bold : Bool
  italic : Bool
deriving DecidableEq, Repr

/-- A Pillow bounding box `(x0, y0, x1, y1)` as returned by
`draw.textbbox((0, 0), text, font)`. -/
structure BBox where
  x0 : Int
  y0 : Int
  x1 : Int
  y1 : Int
deriving DecidableEq, Repr

/-- The width `bb[2] - bb[0]` of a bounding box. -/
def BBox.w (b : BBox) : Int := b.x1 - b.x0

/-- The height `bb[3] - bb[1]` of a bounding box. -/
def BBox.h (b : BBox) : Int := b.y1 - b.y0

/-- Abstract font metrics: the behaviour of `draw.textbbox((0, 0), ·, ·)`. -/
abbrev Metrics := Str → Font → BBox

/-! ## `wrap_text` (create_left_side_of_wide_character_card.py, lines 95-127) -/

/-- Python `text.split(sep)` for a single-character separator: splits at
every occurrence, keeping empty fragments (`"a  b".split(' ') ==
['a', '', 'b']`, `"".split(' ') == ['']`). -/
def splitChar (sep : Char) : Str → List Str
  | [] => [[]]
  | c :: rest =>
    if c = sep then [] :: splitChar sep rest
    else
      match splitChar sep rest with
      | [] => [[c]]
      | r :: rs => (c :: r) :: rs

/-- The size chosen for the enlarged `'∅'` glyph:
`max(8, int(getattr(font, 'size', 16) * 1.25))`. -/
def specialSize (size : Nat) : Nat := max 8 (size * 5 / 4)

/-- The inner `measure_width` of `wrap_text`: sums the bbox width of each
character, using a (regular-face) font enlarged by 1.25 for `'∅'`. -/
def measure_width (M : Metrics) (font : Font) (t : Str) : Int :=
  (t.map (fun ch =>
    let useFont := if ch = '∅' then Font.mk (specialSize font.size) false false else font
    (M [ch] useFont).w)).sum

/-- The word loop of `wrap_text`: `line` is the line under construction,
a word is appended when the extended line still measures within
`maxWidth` or the line is empty, otherwise the line is emitted and the
word starts a new line. -/
def wrapGo (M : Metrics) (font : Font) (maxWidth : Int) : List Str → Str → List Str
  | [], line => if line ≠ [] then [line] else []
  | w :: ws, line =>
    let test := if line ≠ [] then line ++ ' ' :: w else w
    if measure_width M font test ≤ maxWidth ∨ line = [] then
      wrapGo M font maxWidth ws test
    else
      line :: wrapGo M font maxWidth ws w

/-- `wrap_text(draw, text, font, max_width)`: greedy word wrap on single
spaces without breaking words. -/
def wrap_text (M : Metrics) (text : Str) (font : Font) (maxWidth : Int) : List Str :=
  if text = [] then [] else wrapGo M font maxWidth (splitChar ' ' text) []

/-- Concrete metrics used to witness theorems: every character is
`size` wide and a line of text is `size` tall. -/
def unitMetrics : Metrics := fun t f => ⟨0, 0, (t.length : Int) * (f.size : Int), (f.size : Int)⟩

/-- Metrics in which every box is empty, used in counterexamples. -/
def zeroMetrics : Metrics := fun _ _ => ⟨0, 0, 0, 0⟩


/-! ## JSON values (terrain-editor, `terrain-editor/app/main.py`)

The Flask handlers receive and store arbitrary JSON; `JVal` models a parsed
JSON value, with objects as association lists in insertion order (Python
dicts preserve insertion order). -/

/-- A parsed JSON value. -/
inductive JVal where
  | jNull
  | jBool (b : Bool)
  | jInt (n : Int)
  | jStr (s : Str)
  | jList (xs : List JVal)
  | jDict (kvs : List (Str × JVal))
deriving Repr

/-- Python truthiness of a JSON value (`if not data`, `if not item_name`,
`if overlay_data`). -/
def truthy : JVal → Bool
  | .jNull => false
  | .jBool b => b
  | .jInt n => n != 0
  | .jStr s => !s.isEmpty
  | .jList xs => !xs.isEmpty
  | .jDict kvs => !kvs.isEmpty

/-- Python `dict.get(k)`: the value stored under the first (only) matching
key. -/
def dictGet (kvs : List (Str × JVal)) (k : Str) : Option JVal :=
  match kvs.find? (fun kv => kv.fst == k) with
  | some kv => some kv.snd
  | none => none

/-- Python `dict.get(k, default)`. -/
def dictGetD (kvs : List (Str × JVal)) (k : Str) (d : JVal) : JVal :=
  (dictGet kvs k).getD d

/-- Python `dict[k] = v`: replace in place if the key is present,
otherwise append (insertion order). -/
def dictSet (kvs : List (Str × JVal)) (k : Str) (v : JVal) : List (Str × JVal) :=
  match kvs with
  | [] => [(k, v)]
  | (k0, v0) :: rest => if k0 = k then (k, v) :: rest else (k0, v0) :: dictSet rest k v

/-! ## `Path(item_name).stem` -/

/-- The final path component: `pathlib` drops trailing slashes, then takes
the part after the last `/`. -/
def lastComponent (s : Str) : Str :=
  let t := (s.reverse.dropWhile (fun c => c = '/')).reverse
  (t.reverse.takeWhile (fun c => c ≠ '/')).reverse

/-- The index of the last `'.'` in a name, if any. -/
def rfindDot (name : Str) : Option Nat :=
  match name.reverse.findIdx? (fun c => c = '.') with
  | some j => some (name.length - 1 - j)
  | none => none

/-- `Path(item_name).stem`: the final component without its suffix; the
suffix is `name[i:]` for the last dot index `i` only when `0 < i <
len(name) - 1` (so dotfiles and trailing dots keep their name). -/
def pyStem (s : Str) : Str :=
  let name := lastComponent s
  match rfindDot name with
  | some i => if 0 < i ∧ i < name.length - 1 then name.take i else name
  | none => name

/-! ## `POST /api/save` (`save_overlay`, main.py lines 124-182) -/

/-- The HTTP outcome of `save_overlay`: a 400 error with its message, an
unhandled exception (HTTP 500 from Flask), or the 200 JSON response
(`overlayPath` and the new config entry). -/
inductive SaveResp where
  | resp400 (msg : Str)
  | resp500
  | resp200 (overlayPath : Option Str) (entry : JVal)
deriving Repr

/-- Whether a response is an HTTP 400. -/
def SaveResp.is400 : SaveResp → Bool
  | .resp400 _ => true
  | _ => false

/-- Whether a response is an HTTP 200. -/
def SaveResp.is200 : SaveResp → Bool
  | .resp200 _ _ => true
  | _ => false

/-- The payload actually base64-decoded by the handler:
`overlay_data.split(',')[1]` when a comma is present — the second
comma-separated field — otherwise the whole string. -/
def commaPayload (od : Str) : Str :=
  if ',' ∈ od then
    match splitChar ',' od with
    | _ :: x :: _ => x
    | _ => []
  else od

/-- What the claim describes: everything after the first comma. -/
def dropThroughComma (od : Str) : Str :=
  if ',' ∈ od then ((od.dropWhile (fun c => c ≠ ',')).drop 1) else od

/-- The `config` update of `save_overlay` (lines 163-176): ensure the
`item_type` key exists, then assign the entry under the item name.  `none`
models the `TypeError` raised when the config (or its `item_type` slot) is
not a dict. -/
def updateConfig (config : JVal) (ts nameS : Str) (entry : JVal) : Option JVal :=
  match config with
  | .jDict cfg0 =>
    let cfg1 := if (dictGet cfg0 ts).isNone then dictSet cfg0 ts (.jDict []) else cfg0
    match dictGet cfg1 ts with
    | some (.jDict sub) => some (.jDict (dictSet cfg1 ts (.jDict (dictSet sub nameS entry))))
    | _ => none
  | _ => none

/-- The overlay-file write of `save_overlay` (lines 152-161): when
`overlay_data` is truthy it must be a string; its `split(',')[1]` payload is
base64-decoded and written.  `none` models the exceptions (`TypeError` on a
non-string, `binascii.Error` from the decoder). -/
def overlayWrite (decode : Str → Option Str) (overlay_data : JVal)
    (overlay_filename : Str) : Option (List (Str × Str)) :=
  if truthy overlay_data then
    match overlay_data with
    | .jStr od =>
      match decode (commaPayload od) with
      | some bytes => some [(overlay_filename, bytes)]
      | none => none
    | _ => none
  else some []

/-- The new config entry built by `save_overlay` (lines 168-174): a dict
with exactly the keys `overlay`, `overlayWidth`, `overlayHeight`, `flying`
and `colors`, in that order. -/
def mkEntry (d : List (Str × JVal)) (overlay_filename : Str) : JVal :=
  .jDict
    [("overlay".toList,
       if truthy (dictGetD d "overlayData".toList .jNull) then .jStr overlay_filename
       else .jNull),
     ("overlayWidth".toList, dictGetD d "overlayWidth".toList (.jInt 400)),
     ("overlayHeight".toList, dictGetD d "overlayHeight".toList (.jInt 400)),
     ("flying".toList, dictGetD d "flying".toList (.jBool false)),
     ("colors".toList, dictGetD d "colors".toList (.jList []))]

/-- The `item_type` string used for the config update (guaranteed to be a
string by the `typeOK` guard; the default arm is unreachable). -/
def tsOf (d : List (Str × JVal)) : Str :=
  match dictGetD d "itemType".toList (.jStr "objects".toList) with
  | .jStr s => s
  | _ => []

/-- The truthy-body part of `save_overlay` once the 400 guards have
passed. -/
def saveCore (decode : Str → Option Str) (d : List (Str × JVal)) (config : JVal) :
    SaveResp × JVal × List (Str × Str) :=
  match dictGetD d "itemName".toList .jNull with
  | .jStr nameS =>
    let overlay_filename := pyStem nameS ++ "_overlay.png".toList
    let overlay_data := dictGetD d "overlayData".toList .jNull
    (match overlayWrite decode overlay_data overlay_filename with
     | none => (.resp500, config, [])
     | some writes =>
       let entry := mkEntry d overlay_filename
       match updateConfig config (tsOf d) nameS entry with
       | some newCfg =>
         (.resp200
             (if truthy overlay_data then
               some ("/api/image/overlays/".toList ++ overlay_filename)
             else none)
             entry,
           newCfg, writes)
       | none => (.resp500, config, writes))
  | _ => (.resp500, config, [])

/-- Whether the request's `itemType` (with its default `"objects"`) passes
`item_type not in ['objects', 'backgrounds']`. -/
def typeOK (d : List (Str × JVal)) : Bool :=
  match dictGetD d "itemType".toList (.jStr "objects".toList) with
  | .jStr ts => ts == "objects".toList || ts == "backgrounds".toList
  | _ => false

/-- `save_overlay` (main.py lines 124-182) as a function of the abstract
base64 decoder (`none` models `binascii.Error`), the parsed request body
(`none` models an absent/unparsable body) and the loaded config.  Returns
the response, the config as stored in `config.json` after the call, and
the list of `(filename, bytes)` files written into `overlays/`. -/
def save_overlay (decode : Str → Option Str) (body : Option JVal) (config : JVal) :
    SaveResp × JVal × List (Str × Str) :=
  match body with
  | none => (.resp400 "No data provided".toList, config, [])
  | some data =>
    if truthy data = false then (.resp400 "No data provided".toList, config, [])
    else
      match data with
      | .jDict d =>
        if truthy (dictGetD d "itemName".toList .jNull) = false then
          (.resp400 "Item name required".toList, config, [])
        else if typeOK d = false then
          (.resp400 "Invalid item type".toList, config, [])
        else saveCore decode d config
      | _ => (.resp500, config, [])

/-- The formal reading of the claim's error condition "no itemName": the
body is not a JSON object carrying a truthy `itemName`. -/
def noItemName : JVal → Bool
  | .jDict d => !truthy (dictGetD d "itemName".toList .jNull)
  | _ => true

/-- The formal reading of "an itemType other than objects or backgrounds"
(with the handler's default of `"objects"`). -/
def badItemType : JVal → Bool
  | .jDict d =>
    match dictGetD d "itemType".toList (.jStr "objects".toList) with
    | .jStr ts => !(ts == "objects".toList || ts == "backgrounds".toList)
    | _ => true
  | _ => true

/-! ## `GET /api/overlay/<item_type>/<item_name>` (`get_overlay`, lines 185-202) -/

/-- The JSON replies of `get_overlay`: `{'exists': False}`,
`{'exists': True, 'path': …}`, or an unhandled exception (HTTP 500). -/
inductive OverlayResp where
  | exFalse
  | exTrue (path : Str)
  | oresp500
deriving DecidableEq, Repr

/-- `get_overlay(item_type, item_name)`: look up the config entry, read its
`overlay` filename, and check the file's existence (`fsExists` models
`(OVERLAYS_PATH / f).exists()`). -/
def get_overlay (config : JVal) (fsExists : Str → Bool) (item_type item_name : Str) :
    OverlayResp :=
  match config with
  | .jDict cfg =>
    match dictGetD cfg item_type (.jDict []) with
    | .jDict icd =>
      match dictGetD icd item_name (.jDict []) with
      | .jDict ekvs =>
        let ov := dictGetD ekvs "overlay".toList .jNull
        if truthy ov = false then .exFalse
        else
          match ov with
          | .jStr fn =>
            if fsExists fn then .exTrue ("/api/image/overlays/".toList ++ fn)
            else .exFalse
          | _ => .oresp500
      | _ => .oresp500
    | _ => .oresp500
  | _ => .oresp500

/-- Well-formedness of the config as seen by `get_overlay` at `(t, n)`: the
nested lookups meet dicts and the `overlay` field, when present, is `null`
or a string.  Every config this application itself writes satisfies it. -/
def cfgWF (config : JVal) (t n : Str) : Bool :=
  match config with
  | .jDict cfg =>
    match dictGetD cfg t (.jDict []) with
    | .jDict icd =>
      match dictGetD icd n (.jDict []) with
      | .jDict ekvs =>
        match dictGetD ekvs "overlay".toList .jNull with
        | .jNull => true
        | .jStr _ => true
        | _ => false
      | _ => false
    | _ => false
  | _ => false

/-- The overlay filename recorded in the config at `(t, n)`, when the
`overlay` field holds a string. -/
def overlayNameOf (config : JVal) (t n : Str) : Option Str :=
  match config with
  | .jDict cfg =>
    match dictGetD cfg t (.jDict []) with
    | .jDict icd =>
      match dictGetD icd n (.jDict []) with
      | .jDict ekvs =>
        match dictGetD ekvs "overlay".toList .jNull with
        | .jStr fn => some fn
        | _ => none
      | _ => none
    | _ => none
  | _ => none

/-! ## `load_config` and the read endpoints (lines 21-31, 104-121) -/

/-- The state of `config.json` on disk (text contents). -/
inductive FileState where
  | absent
  | present (content : Str)

/-- The default configuration `{"objects": {}, "backgrounds": {}}`. -/
def defaultConfig : JVal :=
  .jDict [("objects".toList, .jDict []), ("backgrounds".toList, .jDict [])]

/-- `load_config()`: read `config.json`, strip it, parse it when nonempty,
and fall back to the default on a missing file, empty content, or a parse
error (`parse` models `json.loads`, `none` a `JSONDecodeError`). -/
def load_config (parse : Str → Option JVal) (file : FileState) : JVal :=
  match file with
  | .absent => defaultConfig
  | .present content =>
    let c := pyStrip content
    if c ≠ [] then
      match parse c with
      | some v => v
      | none => defaultConfig
    else defaultConfig

/-- The per-item default returned by `GET /api/config/<t>/<n>`. -/
def defaultItemCfg : JVal :=
  .jDict [("overlay".toList, .jNull),
          ("overlayWidth".toList, .jInt 400),
          ("overlayHeight".toList, .jInt 400),
          ("flying".toList, .jBool false),
          ("colors".toList, .jList [])]

/-- `get_item_config(item_type, item_name)` (lines 110-121); `none` models
the unhandled `AttributeError` when the config is not a dict of dicts. -/
def get_item_config (config : JVal) (t n : Str) : Option JVal :=
  match config with
  | .jDict cfg =>
    match dictGetD cfg t (.jDict []) with
    | .jDict icd => some (dictGetD icd n defaultItemCfg)
    | _ => none
  | _ => none

/-! ## `draw_signature_move_card` (create_wide_character_card.v4.py, lines 281-469) -/

/-- A signature-move record: its name (empty when absent) and the six
damage fields (absent damages are rendered as `∅`). -/
structure SigMove where
  name : Str
  highGuardDamage : Option Int
  fallingSwingDamage : Option Int
  thrustDamage : Option Int
  sweepingCutDamage : Option Int
  risingAttackDamage : Option Int
  lowGuardDamage : Option Int
deriving Repr

/-- `str(damage) if damage is not None else "∅"`. -/
def damage_text : Option Int → Str
  | some n => (toString n).toList
  | none => ['∅']

/-- What the signature-move card shows: the placeholder text
`"No Signature Move"`, or the damage table rows in draw order. -/
inductive SigOutput where
  | placeholder
  | table (rows : List (Str × Str))
deriving DecidableEq, Repr

/-- The `moves` list of `draw_signature_move_card` (v4 lines 376-383, and
identically v3 lines 106-113), paired with the rendered damage text of the
row loop (v4 line 433). -/
def sigMoveRows (m : SigMove) : List (Str × Str) :=
  [("High Guard".toList, damage_text m.highGuardDamage),
   ("Falling Swing".toList, damage_text m.fallingSwingDamage),
   ("Thrust".toList, damage_text m.thrustDamage),
   ("Sweeping Cut".toList, damage_text m.sweepingCutDamage),
   ("Rising Attack".toList, damage_text m.risingAttackDamage),
   ("Low Guard".toList, damage_text m.lowGuardDamage)]

/-- `draw_signature_move_card` (v4): the placeholder is drawn when the
record is absent, its name missing/empty, or the name is
`"no signature"`/`"none"` case-insensitively; otherwise the six-row table
is drawn. -/
def draw_signature_move_card (sm : Option SigMove) : SigOutput :=
  match sm with
  | none => .placeholder
  | some m =>
    if m.name = [] then .placeholder
    else if lowerPy m.name = "no signature".toList ∨ lowerPy m.name = "none".toList then
      .placeholder
    else .table (sigMoveRows m)

/-! ## Ability classification (create_left_side_of_wide_character_card.py)

The section `for a in abilities: ...` of `layout_and_draw_abilities`
(lines 524-575) sorts the ability dicts of the JSON export into three
lists `passive`, `activated`, `arcane`, consulting the YAML override
map under `norm_key(name)`.  The helpers below embed, in source order:
`parse_yaml_outcome` (lines 239-277), `ensure_period` (lines 282-289),
`inch_text_from_yaml` (lines 452-462), `build_from_yaml` (lines
464-521) and the classification loop itself. -/

/-- Helper `ensure_period` (lines 282-289): rstrip, then append `'.'` unless the
text is empty or already ends in one of the characters
`.` `!` `?` `"` (codes 46, 33, 63, 34) or the apostrophe (39). -/
def ensure_period (text : Str) : Str :=
  let s := pyRstrip text
  if s = [] then s
  else if (s.getLast?).elim false
      (fun c => c.toNat = 46 ∨ c.toNat = 33 ∨ c.toNat = 63 ∨ c.toNat = 34 ∨
        c.toNat = 39) then s
  else s ++ ['.']

/-- Python `s.split(" or ")`: split on the exact four-character separator,
scanning left to right without overlap. -/
def splitOnOrGo : Str → Str → List Str
  | acc, [] => [acc.reverse]
  | acc, ' ' :: 'o' :: 'r' :: ' ' :: rest => acc.reverse :: splitOnOrGo [] rest
  | acc, c :: rest => splitOnOrGo (c :: acc) rest

def splitOnOr (s : Str) : List Str := splitOnOrGo [] s

/-- Python `str.split()` with no argument: split on whitespace runs,
dropping empty fragments. -/
def pySplitGo : Str → Str → List Str
  | acc, [] => if acc = [] then [] else [acc.reverse]
  | acc, c :: rest =>
    if pyWS c then
      if acc = [] then pySplitGo [] rest else acc.reverse :: pySplitGo [] rest
    else pySplitGo (c :: acc) rest

def pySplit (s : Str) : List Str := pySplitGo [] s

/-- Keep the first occurrence of each value, in order (the
`unique_values` / `seen` loop of `parse_yaml_outcome`). -/
def dedupGo (seen : List Str) : List Str → List Str
  | [] => []
  | v :: vs => if seen.contains v then dedupGo seen vs else v :: dedupGo (v :: seen) vs

/-- `" or ".join(values)`. -/
def joinOr : List Str → Str
  | [] => []
  | [v] => v
  | v :: vs => v ++ " or ".toList ++ joinOr vs

/-- Helper `parse_yaml_outcome` (lines 239-277): split a YAML outcome string such
as `"gX,bX: Target suffers X Dmg."` into the token value text, the colour
bitmask (green=1, blue=2, red=4) and the description after the first
colon.  Each comma token contributes its tail (or `"X"`) to the value
list; the value text joins the distinct values with `" or "`. -/
def parse_yaml_outcome (outcome : Str) : Str × Nat × Str :=
  let s := pyStrip (normalize_quotes outcome)
  let left := if s.contains ':' then s.takeWhile (fun c => c != ':') else s
  let desc := if s.contains ':' then pyStrip ((s.dropWhile (fun c => c != ':')).drop 1) else []
  let tokens := ((splitChar ',' left).map pyStrip).filter (fun t => t ≠ [])
  let vm := tokens.foldl (fun (st : List Str × Nat) tok =>
    match tok with
    | [] => st
    | c :: restTok =>
      let v0 := pyStrip restTok
      let v := if v0 = [] then "X".toList else v0
      let mask := if c.toLower = 'g' then st.2 ||| 1
        else if c.toLower = 'b' then st.2 ||| 2
        else if c.toLower = 'r' then st.2 ||| 4
        else st.2
      (st.1 ++ [v], mask)) ([], 0)
  let value_text := if vm.1 = [] then "X".toList else joinOr (dedupGo [] vm.1)
  (value_text, vm.2, desc)

/-- A raw `cost` value from YAML or JSON: absent/null, an int, or a
string (`compose_title_parts` only appends `" (c)"` for numeric costs). -/
inductive CostV where
  | cNone : CostV
  | cInt (n : Int) : CostV
  | cStr (s : Str) : CostV
deriving DecidableEq, Repr

/-- A raw `cardValueRequirement` value: absent/null, an int, or a string. -/
inductive ValReq where
  | vNone : ValReq
  | vInt (n : Int) : ValReq
  | vStr (s : Str) : ValReq
deriving DecidableEq, Repr

/-- A raw `range` value from YAML or JSON, as consumed by
`inch_text_from_yaml`: absent/null, an int, or a string. -/
inductive YScalar where
  | yNone : YScalar
  | yInt (n : Int) : YScalar
  | yStr (s : Str) : YScalar
deriving DecidableEq, Repr

/-- Helper `inch_text_from_yaml` (lines 452-462): `""` for absent/empty values,
`" n\""` for numeric values, and `" s"` for normalized string values,
with `"` appended when the string is all digits. -/
def inch_text_from_yaml (val : YScalar) : Str :=
  match val with
  | .yNone => []
  | .yInt n => ' ' :: ((toString n).toList ++ ['"'])
  | .yStr s =>
    if s = [] then []
    else
      let s2 := normalize_quotes s
      ' ' :: (if s2 ≠ [] ∧ s2.all Char.isDigit then s2 ++ ['"'] else s2)

/-- One element of a JSON ability's `ArcaneOutcome` list that is a dict
(the loop skips non-dict items). -/
structure JOutRec where
  cardValueRequirement : ValReq
  cardColourRequirement : Int
  outcomeText : Str
  catastropheOutcome : Bool
deriving DecidableEq, Repr

inductive JOutItem where
  | item (rec : JOutRec) : JOutItem
  | notDict : JOutItem
deriving DecidableEq, Repr

/-- One ability dict from the JSON export, with the fields the
classification loop reads.  A missing `name` is modelled as the resolved
default string (the code reads `a.get("name", "Unnamed")`); missing or
null text fields are the empty string (the code reads them with
`... or ""`); `oncePerTurn`/`oncePerGame`/`pulse` are read through
Python truthiness, modelled as `Bool`. -/
structure JsonAbility where
  name : Str
  energyCost : Option Int
  description : Str
  text : Str
  oncePerTurn : Bool
  oncePerGame : Bool
  arcaneOutcome : List JOutItem
  range : YScalar
  pulse : Bool
  tail : Str
deriving DecidableEq, Repr

/-- One element of a YAML definition's `arcaneOutcomes` list: a string
(parsed by `parse_yaml_outcome`) or anything else (skipped). -/
inductive YItem where
  | ystr (s : Str) : YItem
  | other : YItem
deriving DecidableEq, Repr

/-- One value of the YAML override map, after `load_yaml_abilities`
(lines 206-233) has applied its `setdefault` calls and stored
`__name = normalize_quotes(str(key))`.  Absent/null string fields are
the empty string (the classification reads them with `... or ""`). -/
structure YamlDef where
  ytype : Str
  cost : CostV
  yrange : YScalar
  isPulse : Bool
  textToRightInItalics : Str
  arcaneSubText : Str
  activatedText : Str
  arcaneOutcomes : List YItem
  catastrophe : Str
  yname : Str
deriving DecidableEq, Repr

/-- Lookup `yaml_map.get(norm_key(name))` on the map built by
`load_yaml_abilities` (every stored value is a non-empty dict, so
`if ydef:` is equivalent to presence). -/
def lookupYaml (ymap : List (Str × YamlDef)) (k : Str) : Option YamlDef :=
  (ymap.find? (fun p => p.1 == k)).map Prod.snd

/-- A classified passive entry (`name`, `description`, `once_text`). -/
structure PassiveE where
  name : Str
  description : Str
  once_text : Str
deriving DecidableEq, Repr

/-- A classified activated entry. -/
structure ActivatedE where
  name : Str
  cost : CostV
  range_txt : Str
  pulse : Bool
  tail : Str
  description : Str
  catastrophe : Str
deriving DecidableEq, Repr

/-- A classified arcane outcome dict (`cardValueRequirement`,
`cardColourRequirement`, `outcomeText`, `catastropheOutcome`);
the YAML catastrophe outcome carries no value/colour keys, read back
with defaults `None`/`0`. -/
structure OutcomeE where
  cardValueRequirement : ValReq
  cardColourRequirement : Int
  outcomeText : Str
  catastropheOutcome : Bool
deriving DecidableEq, Repr

/-- A classified arcane entry. -/
structure ArcaneE where
  name : Str
  cost : CostV
  range_txt : Str
  pulse : Bool
  tail : Str
  subtext : Str
  outcomes : List OutcomeE
deriving DecidableEq, Repr

/-- The three lists built by the classification loop. -/
structure Classified where
  passive : List PassiveE
  activated : List ActivatedE
  arcane : List ArcaneE
deriving DecidableEq, Repr

/-- Fallback `a.get("description") or a.get("text") or ""`. -/
def jsonDesc (a : JsonAbility) : Str :=
  if a.description ≠ [] then a.description else a.text

/-- The once-per tail: `" Once Per Turn."` / `" Once Per Game."` from the
truthiness of the JSON flags (`oncePerTurn` checked first). -/
def onceTextOf (opt opg : Bool) : Str :=
  if opt then " Once Per Turn.".toList
  else if opg then " Once Per Game.".toList
  else []

/-- Helper `build_from_yaml(name, base_obj, ydef)` (lines 464-521): dispatch on
`(ydef.get("type") or "").strip().lower()`; `activated` and `arcane`
entries are built from the YAML fields, while the fallback passive
branch takes its description and once-per flags from the JSON
`base_obj`. -/
def buildFromYaml (acc : Classified) (name : Str) (base : JsonAbility)
    (ydef : YamlDef) : Classified :=
  let t := lowerPy (pyStrip ydef.ytype)
  if t = "activated".toList then
    { acc with activated := acc.activated ++
      [{ name := name
         cost := ydef.cost
         range_txt := inch_text_from_yaml ydef.yrange
         pulse := ydef.isPulse
         tail := normalize_quotes ydef.textToRightInItalics
         description := ensure_period (normalize_quotes ydef.activatedText)
         catastrophe := normalize_quotes ydef.catastrophe }] }
  else if t = "arcane".toList then
    let outcomes := ydef.arcaneOutcomes.filterMap (fun it =>
      match it with
      | .ystr s =>
        let r := parse_yaml_outcome s
        some { cardValueRequirement := .vStr r.1
               cardColourRequirement := (r.2.1 : Int)
               outcomeText := ensure_period (normalize_quotes r.2.2)
               catastropheOutcome := false }
      | .other => none)
    let outcomes := if ydef.catastrophe ≠ [] then
        outcomes ++ [{ cardValueRequirement := .vNone
                       cardColourRequirement := 0
                       outcomeText := ensure_period (normalize_quotes ydef.catastrophe)
                       catastropheOutcome := true }]
      else outcomes
    { acc with arcane := acc.arcane ++
      [{ name := name
         cost := ydef.cost
         range_txt := inch_text_from_yaml ydef.yrange
         pulse := ydef.isPulse
         tail := normalize_quotes ydef.textToRightInItalics
         subtext := normalize_quotes ydef.arcaneSubText
         outcomes := outcomes }] }
  else
    { acc with passive := acc.passive ++
      [{ name := name
         description := ensure_period (normalize_quotes (jsonDesc base))
         once_text := onceTextOf base.oncePerTurn base.oncePerGame }] }

/-- One iteration of the classification loop (lines 524-575): normalize
the JSON name, consult the YAML map under `norm_key`, and either build
from YAML (under the stored `__name`) or from the JSON fields (passive
when `energyCost` is null, arcane when `ArcaneOutcome` is non-empty,
activated otherwise). -/
def classifyStep (ymap : List (Str × YamlDef)) (acc : Classified)
    (a : JsonAbility) : Classified :=
  let name := normalize_quotes a.name
  match lookupYaml ymap (norm_key name) with
  | some ydef => buildFromYaml acc ydef.yname a ydef
  | none =>
    match a.energyCost with
    | none =>
      { acc with passive := acc.passive ++
        [{ name := name
           description := ensure_period (normalize_quotes (jsonDesc a))
           once_text := onceTextOf a.oncePerTurn a.oncePerGame }] }
    | some energy =>
      if a.arcaneOutcome ≠ [] then
        let outs := a.arcaneOutcome.filterMap (fun it =>
          match it with
          | .item r =>
            some { cardValueRequirement := r.cardValueRequirement
                   cardColourRequirement := r.cardColourRequirement
                   outcomeText := ensure_period (normalize_quotes r.outcomeText)
                   catastropheOutcome := r.catastropheOutcome }
          | .notDict => none)
        { acc with arcane := acc.arcane ++
          [{ name := name
             cost := .cInt energy
             range_txt := inch_text_from_yaml a.range
             pulse := a.pulse
             tail := normalize_quotes a.tail
             subtext := []
             outcomes := outs }] }
      else
        { acc with activated := acc.activated ++
          [{ name := name
             cost := .cInt energy
             range_txt := inch_text_from_yaml a.range
             pulse := a.pulse
             tail := normalize_quotes a.tail
             description := ensure_period (normalize_quotes (jsonDesc a))
             catastrophe := [] }] }

/-- The whole classification loop over the abilities list. -/
def classify (abilities : List JsonAbility) (ymap : List (Str × YamlDef)) :
    Classified :=
  abilities.foldl (classifyStep ymap) ⟨[], [], []⟩

/-! ## The measurement and drawing passes of `layout_and_draw_abilities`

`measure(total_title_size, total_body_size)` (lines 614-778) computes
the height the content would need; the drawing code (lines 787-1023)
then renders with the chosen sizes.  Only the final y-coordinate of
each pass is embedded (`measureY` / `drawY`); pure drawing calls have
no y-effect.  Fonts are `get_font(size, bold, italic)`. -/

/-- Helper `compose_title_parts` (lines 581-603), base part: name, `" (cost)"`
for numeric costs, the range text and `" Pulse"`. -/
def compose_title_base (name : Str) (cost : CostV) (range_txt : Str)
    (pulse : Bool) : Str :=
  let base := name
  let base := match cost with
    | .cInt n => base ++ (" (".toList ++ (toString n).toList ++ ")".toList)
    | _ => base
  let base := if range_txt ≠ [] then base ++ range_txt else base
  if pulse then base ++ " Pulse".toList else base

/-- Python two's-complement bit test: `n & 2**i != 0`. -/
def intTestBit (n : Int) (i : Nat) : Bool :=
  if 0 ≤ n then n.toNat.testBit i else !((-n - 1).toNat.testBit i)

/-- Helper `colors_for_code` (lines 620-632 and again at 874-885): the colour
codes 1, 2, 4 whose bits are set in the mask. -/
def colors_for_code (code : Int) : List Int :=
  (if intTestBit code 0 then [(1 : Int)] else []) ++
    (if intTestBit code 1 then [2] else []) ++
    (if intTestBit code 2 then [4] else [])

/-- The token value text (lines 745-746 and 1000-1001): `str(val)` for a
non-zero number, the string itself for a string, `"X"` otherwise. -/
def tokenValOf : ValReq → Str
  | .vInt n => if n ≠ 0 then (toString n).toList else "X".toList
  | .vStr s => s
  | .vNone => "X".toList

/-- Separator widths of the one-token-per-colour loop: `", "` before all
but the last two tokens, `" or "` before the last. -/
def colsWidth (token_w punct_w or_w : Int) (n : Nat) : Int :=
  (List.range n).foldl (fun w i =>
    w + token_w +
      (if (i : Int) < (n : Int) - 2 then punct_w
       else if (i : Int) = (n : Int) - 2 then or_w else 0)) 0

/-- Measurement-pass token width for one value (`token_width_sequence`,
lines 654-660): height estimate `max(min(line_h-3, h+8), h+6)`. -/
def tokW (M : Metrics) (token_font : Font) (line_h : Int) (v : Str) : Int :=
  let tb := M v token_font
  let token_h_est := max (min (line_h - 3) (tb.h + 8)) (tb.h + 6)
  max (tb.w + 3 * 2 - 2) (token_h_est - 6)

/-- Measurement-pass width of the several-values-one-colour layout:
tokens joined by `" or "`. -/
def multiTokenWidth (M : Metrics) (token_font : Font) (line_h or_w : Int) :
    List Str → Int
  | [] => 0
  | [v] => tokW M token_font line_h v
  | v :: vs => tokW M token_font line_h v + or_w +
      multiTokenWidth M token_font line_h or_w vs

/-- Helper `token_width_sequence(val_text, color_code)` (lines 634-679): the
horizontal space the measurement pass reserves for the outcome tokens.
With no colours it is the plain-text width of `"{val}: "` in the body
font; otherwise token widths (regular token font, two sizes below the
body font but at least 12) plus separators and the final `": "`. -/
def token_width_sequence (M : Metrics) (body_font : Font) (line_h : Int)
    (val_text : Str) (color_code : Int) : Int :=
  let token_font : Font := ⟨max 12 (body_font.size - 2), false, false⟩
  let punct_w := (M ", ".toList body_font).x1
  let or_w := (M " or ".toList body_font).x1
  let colon_w := (M ": ".toList body_font).x1
  let cols := colors_for_code color_code
  if cols = [] then (M (val_text ++ ": ".toList) body_font).x1
  else
    let values := (splitOnOr val_text).map pyStrip
    if cols.length = 1 ∧ 1 < values.length then
      multiTokenWidth M token_font line_h or_w values + colon_w
    else
      let tb := M val_text token_font
      let token_h_est := max (min (line_h - 3) (tb.h + 8)) (tb.h + 6)
      let token_w := max (tb.w + 3 * 2 - 2) (token_h_est - 6)
      colsWidth token_w punct_w or_w cols.length + colon_w

/-- Draw-pass token width for one value (`draw_token_sequence`,
lines 916-922): height `max(min(line_h-3, h+pad_y*2), h+pad_y*2-1)`
with `pad_y = 4`, one more than the measurement estimate. -/
def tokWD (M : Metrics) (token_font : Font) (line_h : Int) (v : Str) : Int :=
  let tb := M v token_font
  let token_h := max (min (line_h - 3) (tb.h + 8)) (tb.h + 7)
  max (tb.w + 3 * 2 - 2) (token_h - 6)

/-- Draw-pass width of the several-values-one-colour layout. -/
def multiTokenWidthD (M : Metrics) (token_font : Font) (line_h or_w : Int) :
    List Str → Int
  | [] => 0
  | [v] => tokWD M token_font line_h v
  | v :: vs => tokWD M token_font line_h v + or_w +
      multiTokenWidthD M token_font line_h or_w vs

/-- The x-coordinate returned by `draw_token_sequence(x, y, value_text,
color_code, font)` (lines 894-973).  With no colours the label is drawn
in the BOLD token font and advances by its bbox width `sb[2]-sb[0]`
(the measurement pass instead measured `"{val}: "` in the regular body
font, by raw `[2]`). -/
def draw_token_sequence_endx (M : Metrics) (x : Int) (value_text : Str)
    (color_code : Int) (font : Font) : Int :=
  let line_h := (M "Ag".toList font).y1
  let token_font : Font := ⟨max 12 (font.size - 2), false, false⟩
  let token_bold_font : Font := ⟨max 12 (font.size - 2), true, false⟩
  let cols := colors_for_code color_code
  if cols = [] then x + (M (value_text ++ ": ".toList) token_bold_font).w
  else
    let values := (splitOnOr value_text).map pyStrip
    let punct_w := (M ", ".toList font).x1
    let or_w := (M " or ".toList font).x1
    let colon_w := (M ": ".toList font).x1
    if cols.length = 1 ∧ 1 < values.length then
      x + multiTokenWidthD M token_font line_h or_w values + colon_w
    else
      let tb := M value_text token_font
      let token_h := max (min (line_h - 3) (tb.h + 8)) (tb.h + 7)
      let token_w := max (tb.w + 3 * 2 - 2) (token_h - 6)
      x + colsWidth token_w punct_w or_w cols.length + colon_w

/-- Accumulate `y += (bbox height) + 2` over a list of wrapped lines. -/
def linesFoldY (M : Metrics) (f : Font) (y : Int) (lines : List Str) : Int :=
  lines.foldl (fun y line => y + (M line f).h + 2) y

/-- The greedy first-line loop of an arcane outcome (identical text at
lines 754-761 and 1009-1015): extend while the stripped candidate
measures within `bound` (raw bbox `[2]`) or the line is still empty,
stop at the first word that does not fit. -/
def firstLineGo (M : Metrics) (font : Font) (bound : Int) :
    List Str → Str → Str
  | [], fl => fl
  | w :: ws, fl =>
    let test := pyStrip (fl ++ ' ' :: w)
    if (M test font).x1 ≤ bound ∨ fl = [] then firstLineGo M font bound ws test
    else fl

/-- Measurement of one passive entry (lines 682-711): wrapped
`"name: description"` lines, then the once-per tail measured against
the space left on the last line and wrapped when it does not fit,
then the line gap 8. -/
def measurePassiveOne (M : Metrics) (bs : Nat) (area_w : Int) (a : PassiveE)
    (y0 : Int) : Int :=
  let body_font : Font := ⟨bs, false, false⟩
  let full := pyStrip ((a.name ++ ": ".toList) ++ a.description)
  let lines := wrap_text M full body_font area_w
  let y := linesFoldY M body_font y0 lines
  let last_w : Int := (lines.getLast?).elim 0 (fun l => (M l body_font).w)
  let tail := pyRstrip a.once_text
  let y :=
    if tail ≠ [] then
      let italic_body : Font := ⟨bs, false, true⟩
      let remaining := max 0 (area_w - last_w)
      if (M tail italic_body).x1 ≤ remaining then y
      else linesFoldY M italic_body y (wrap_text M tail italic_body area_w)
    else y
  y + 8

/-- Drawing of one passive entry, y-effects only (lines 795-838): the
same wrapped lines; a tail that fits on a non-empty last line
(`last_h > 0`) adds nothing, otherwise it is drawn as ONE extra line
(not wrapped). -/
def drawPassiveOne (M : Metrics) (bs : Nat) (area_w : Int) (a : PassiveE)
    (y0 : Int) : Int :=
  let body_font : Font := ⟨bs, false, false⟩
  let full := pyStrip ((a.name ++ ": ".toList) ++ a.description)
  let lines := wrap_text M full body_font area_w
  let st := lines.foldl
    (fun (st : Int × Int × Int) line =>
      (st.1 + (M line body_font).h + 2, (M line body_font).w, (M line body_font).h))
    (y0, 0, 0)
  let tail := pyRstrip a.once_text
  let y :=
    if tail ≠ [] then
      let body_italic_font : Font := ⟨bs, false, true⟩
      let remaining := max 0 (area_w - st.2.1)
      if (M tail body_italic_font).x1 ≤ remaining ∧ 0 < st.2.2 then st.1
      else st.1 + (M tail body_italic_font).h + 2
    else st.1
  y + 8

/-- Measurement of one activated entry (lines 715-731): title height + 4,
the wrapped description, the wrapped `"Catastrophe: ..."` when present,
then the line gap 8. -/
def measureActivatedOne (M : Metrics) (ts bs : Nat) (area_w : Int)
    (a : ActivatedE) (y0 : Int) : Int :=
  let title_font : Font := ⟨ts, true, false⟩
  let body_font : Font := ⟨bs, false, false⟩
  let base_text := compose_title_base a.name a.cost a.range_txt a.pulse
  let y := y0 + (M base_text title_font).h + 4
  let y := linesFoldY M body_font y (wrap_text M a.description body_font area_w)
  let c_text := pyStrip a.catastrophe
  let y :=
    if c_text ≠ [] then
      linesFoldY M body_font y
        (wrap_text M ("Catastrophe: ".toList ++ ensure_period c_text) body_font area_w)
    else y
  y + 8

/-- Drawing of one activated entry, y-effects only (lines 844-867):
identical increments to the measurement pass. -/
def drawActivatedOne (M : Metrics) (ts bs : Nat) (area_w : Int)
    (a : ActivatedE) (y0 : Int) : Int :=
  let title_font : Font := ⟨ts, true, false⟩
  let body_font : Font := ⟨bs, false, false⟩
  let base_text := compose_title_base a.name a.cost a.range_txt a.pulse
  let y := y0 + (M base_text title_font).h + 4
  let y := linesFoldY M body_font y (wrap_text M a.description body_font area_w)
  let c_text := pyStrip a.catastrophe
  let y :=
    if c_text ≠ [] then
      linesFoldY M body_font y
        (wrap_text M ("Catastrophe: ".toList ++ ensure_period c_text) body_font area_w)
    else y
  y + 8

/-- Measurement of one arcane entry (lines 735-777): title, optional
italic subtext, then each non-catastrophe outcome (token width reserved
by `token_width_sequence`, first line limited to
`max(10, area_w - token_w)`, the rest wrapped at full width), then the
catastrophe line, wrapped WITHOUT `ensure_period`. -/
def measureArcaneOne (M : Metrics) (ts bs : Nat) (area_w : Int) (a : ArcaneE)
    (y0 : Int) : Int :=
  let title_font : Font := ⟨ts, true, false⟩
  let body_font : Font := ⟨bs, false, false⟩
  let line_h := (M "Ag".toList body_font).y1
  let base_text := compose_title_base a.name a.cost a.range_txt a.pulse
  let y := y0 + (M base_text title_font).h + 4
  let subtext := pyStrip a.subtext
  let y :=
    if subtext ≠ [] then
      let italic_body : Font := ⟨bs, false, true⟩
      linesFoldY M italic_body y (wrap_text M subtext italic_body area_w)
    else y
  let non_cats := a.outcomes.filter (fun o => !o.catastropheOutcome)
  let cata := a.outcomes.find? (fun o => o.catastropheOutcome)
  let y := non_cats.foldl (fun y nc =>
    let token_val := tokenValOf nc.cardValueRequirement
    let token_w := token_width_sequence M body_font line_h token_val
      nc.cardColourRequirement
    let desc_text := pyStrip nc.outcomeText
    let words := pySplit desc_text
    let max_first := max 10 (area_w - token_w)
    let first_line := firstLineGo M body_font max_first words []
    let y := if first_line ≠ [] then y + (M first_line body_font).h + 2 else y
    let remaining := pyLstrip (desc_text.drop first_line.length)
    linesFoldY M body_font y (wrap_text M remaining body_font area_w)) y
  let y :=
    match cata with
    | some c =>
      linesFoldY M body_font y
        (wrap_text M ("Catastrophe: ".toList ++ pyStrip c.outcomeText)
          body_font area_w)
    | none => y
  y + 8

/-- Drawing of one arcane entry, y-effects only (lines 977-1022): the
first-line width is `area_w` minus the actual token end-x from
`draw_token_sequence` (no `max(10, ...)` clamp), and the catastrophe
text passes through `ensure_period`. -/
def drawArcaneOne (M : Metrics) (ts bs : Nat) (area_x area_w : Int)
    (a : ArcaneE) (y0 : Int) : Int :=
  let title_font : Font := ⟨ts, true, false⟩
  let body_font : Font := ⟨bs, false, false⟩
  let base_text := compose_title_base a.name a.cost a.range_txt a.pulse
  let y := y0 + (M base_text title_font).h + 4
  let subtext := pyStrip a.subtext
  let y :=
    if subtext ≠ [] then
      let body_italic_font : Font := ⟨bs, false, true⟩
      linesFoldY M body_italic_font y (wrap_text M subtext body_italic_font area_w)
    else y
  let non_cats := a.outcomes.filter (fun o => !o.catastropheOutcome)
  let cata := a.outcomes.find? (fun o => o.catastropheOutcome)
  let y := non_cats.foldl (fun y nc =>
    let token_val := tokenValOf nc.cardValueRequirement
    let start_after := draw_token_sequence_endx M area_x token_val
      nc.cardColourRequirement body_font
    let available_first := area_w - (start_after - area_x)
    let desc_text := pyStrip nc.outcomeText
    let words := pySplit desc_text
    let first_line := firstLineGo M body_font available_first words []
    let y := if first_line ≠ [] then y + (M first_line body_font).h + 2 else y
    let remaining := pyLstrip (desc_text.drop first_line.length)
    linesFoldY M body_font y (wrap_text M remaining body_font area_w)) y
  let y :=
    match cata with
    | some c =>
      linesFoldY M body_font y
        (wrap_text M ("Catastrophe: ".toList ++ ensure_period (pyStrip c.outcomeText))
          body_font area_w)
    | none => y
  y + 8

/-- The final y of `measure(total_title_size, total_body_size)`
(lines 614-778): passive entries, a 6px divider gap when sections
follow, activated entries, another divider gap, arcane entries. -/
def measureY (M : Metrics) (cl : Classified) (area_y area_w : Int)
    (ts bs : Nat) : Int :=
  let y := cl.passive.foldl (fun y a => measurePassiveOne M bs area_w a y) area_y
  let y := if cl.passive ≠ [] ∧ (cl.activated ≠ [] ∨ cl.arcane ≠ []) then y + 6 else y
  let y := cl.activated.foldl (fun y a => measureActivatedOne M ts bs area_w a y) y
  let y := if cl.activated ≠ [] ∧ cl.arcane ≠ [] then y + 6 else y
  cl.arcane.foldl (fun y a => measureArcaneOne M ts bs area_w a y) y

/-- The final y of the drawing pass (lines 787-1023), with the same
section structure. -/
def drawY (M : Metrics) (cl : Classified) (area_x area_y area_w : Int)
    (ts bs : Nat) : Int :=
  let y := cl.passive.foldl (fun y a => drawPassiveOne M bs area_w a y) area_y
  let y := if cl.passive ≠ [] ∧ (cl.activated ≠ [] ∨ cl.arcane ≠ []) then y + 6 else y
  let y := cl.activated.foldl (fun y a => drawActivatedOne M ts bs area_w a y) y
  let y := if cl.activated ≠ [] ∧ cl.arcane ≠ [] then y + 6 else y
  cl.arcane.foldl (fun y a => drawArcaneOne M ts bs area_x area_w a y) y

/-! ## The auto-shrink loop (lines 577-579 and 780-785) -/

/-- The `while True` shrink loop: measure, stop when the content fits in
`limit` or both sizes are at the minimum 12, otherwise decrement both
sizes (clamped at 12) and repeat.  Termination: each iteration strictly
decreases the distance of the sizes from the minimum. -/
def shrinkLoop (m : Nat → Nat → Int) (limit : Int) (ts bs : Nat) : Nat × Nat :=
  if m ts bs ≤ limit ∨ (ts ≤ 12 ∧ bs ≤ 12) then (ts, bs)
  else shrinkLoop m limit (max 12 (ts - 1)) (max 12 (bs - 1))
termination_by (ts - 12) + (bs - 12)
decreasing_by
  rename_i h
  rw [not_or] at h
  have h2 := h.2
  simp only [Nat.max_def]
  split_ifs <;> omega

/-- The sizes `layout_and_draw_abilities` ends up drawing with:
the shrink loop run on `measure` from `title_size = 24`,
`body_size = 23` against `area_bottom - 2`. -/
def chosenSizes (M : Metrics) (cl : Classified) (area_y area_w area_bottom : Int) :
    Nat × Nat :=
  shrinkLoop (fun t b => measureY M cl area_y area_w t b) (area_bottom - 2) 24 23

/-! ## Concrete inputs for the layout claims -/

/-- A JSON ability with an energy cost and one arcane outcome, used at a
concrete metrics/width instance. -/
def c1ability : JsonAbility :=
  { name := "A".toList
    energyCost := some 1
    description := []
    text := []
    oncePerTurn := false
    oncePerGame := false
    arcaneOutcome := [.item
      { cardValueRequirement := .vStr "X".toList
        cardColourRequirement := 0
        outcomeText := "x y".toList
        catastropheOutcome := false }]
    range := .yNone
    pulse := false
    tail := [] }

/-- A YAML definition of type `passive`. -/
def c4ydef : YamlDef :=
  { ytype := "passive".toList
    cost := .cNone
    yrange := .yNone
    isPulse := false
    textToRightInItalics := []
    arcaneSubText := []
    activatedText := []
    arcaneOutcomes := []
    catastrophe := []
    yname := "A".toList }

/-- A YAML map holding `c4ydef` under the normalized key of `"A"`. -/
def c4ymap : List (Str × YamlDef) := [("a".toList, c4ydef)]

/-- The JSON ability named `"A"` with a given description. -/
def c4ability (d : Str) : JsonAbility :=
  { name := "A".toList
    energyCost := some 2
    description := d
    text := []
    oncePerTurn := false
    oncePerGame := false
    arcaneOutcome := []
    range := .yNone
    pulse := false
    tail := [] }

/-- A JSON passive ability (no energy cost, no once-per flags). -/
def c1passive : JsonAbility :=
  { name := "P".toList
    energyCost := none
    description := "hello world".toList
    text := []
    oncePerTurn := false
    oncePerGame := false
    arcaneOutcome := []
    range := .yNone
    pulse := false
    tail := [] }

/-- A JSON activated ability (energy cost, no arcane outcomes). -/
def c1activated : JsonAbility :=
  { name := "Q".toList
    energyCost := some 2
    description := "do the thing".toList
    text := []
    oncePerTurn := false
    oncePerGame := false
    arcaneOutcome := []
    range := .yInt 4
    pulse := true
    tail := "aura".toList }

/-- The YAML definition `c4ydef` retyped as `activated`. -/
def c4ydefAct : YamlDef :=
  { c4ydef with ytype := "activated".toList, activatedText := "Do it".toList }

/-- A YAML map holding the `activated`-typed definition under the
normalized key of `"A"`. -/
def c4ymapAct : List (Str × YamlDef) := [("a".toList, c4ydefAct)]

/-- A YAML map that does not contain the normalized key of `"A"`. -/
def c4ymapOther : List (Str × YamlDef) := [("zzz".toList, c4ydef)]


/-! # Theorems -/

/-! ## Lemmas about `splitChar` and `wrapGo` -/

theorem splitChar_nil (sep : Char) : splitChar sep [] = [[]] := rfl

theorem splitChar_cons_sep (sep : Char) (s : Str) :
    splitChar sep (sep :: s) = [] :: splitChar sep s := by
  simp [splitChar]

theorem splitChar_cons_ne {sep c : Char} (h : c ≠ sep) (s : Str) {r : Str}
    {rs : List Str} (hs : splitChar sep s = r :: rs) :
    splitChar sep (c :: s) = (c :: r) :: rs := by
  unfold splitChar
  rw [if_neg h, hs]

theorem splitChar_ne_nil (sep : Char) (s : Str) : splitChar sep s ≠ [] := by
  induction s with
  | nil => simp [splitChar]
  | cons c rest ih =>
    unfold splitChar
    by_cases h : c = sep
    · simp [h]
    · simp only [if_neg h]
      cases hs : splitChar sep rest with
      | nil => simp
      | cons r rs => simp

theorem splitChar_sep_not_mem (sep : Char) (s : Str) :
    ∀ w ∈ splitChar sep s, sep ∉ w := by
  induction s with
  | nil => intro w hw; simp [splitChar] at hw; simp [hw]
  | cons c rest ih =>
    intro w hw
    by_cases h : c = sep
    · subst h
      rw [splitChar_cons_sep] at hw
      rcases List.mem_cons.mp hw with hcase | hcase
      · simp [hcase]
      · exact ih w hcase
    · cases hs : splitChar sep rest with
      | nil => exact absurd hs (splitChar_ne_nil sep rest)
      | cons r rs =>
        rw [splitChar_cons_ne h rest hs] at hw
        rcases List.mem_cons.mp hw with hcase | hcase
        · subst hcase
          intro hmem
          rcases List.mem_cons.mp hmem with hcc | hcc
          · exact h hcc.symm
          · exact ih r (by simp [hs]) hcc
        · exact ih w (by simp [hs, hcase])

theorem splitChar_of_not_mem {sep : Char} {s : Str} (h : sep ∉ s) :
    splitChar sep s = [s] := by
  induction s with
  | nil => rfl
  | cons c rest ih =>
    have hc : c ≠ sep := fun hc => h (by simp [hc])
    have hr : sep ∉ rest := fun hr => h (by simp [hr])
    exact splitChar_cons_ne hc rest (ih hr)

theorem splitChar_append_sep (sep : Char) (a b : Str) :
    splitChar sep (a ++ sep :: b) = splitChar sep a ++ splitChar sep b := by
  induction a with
  | nil => simp [splitChar_cons_sep, splitChar]
  | cons c a' ih =>
    by_cases h : c = sep
    · subst h
      rw [List.cons_append, splitChar_cons_sep, ih, splitChar_cons_sep]
      simp
    · cases hs : splitChar sep a' with
      | nil => exact absurd hs (splitChar_ne_nil sep a')
      | cons r rs =>
        rw [List.cons_append,
          splitChar_cons_ne h (a' ++ sep :: b) (by rw [ih, hs]; rfl),
          splitChar_cons_ne h a' hs]
        simp

theorem wrapGo_nil (M : Metrics) (font : Font) (maxWidth : Int) (line : Str) :
    wrapGo M font maxWidth [] line = if line ≠ [] then [line] else [] := rfl

theorem wrapGo_cons_empty (M : Metrics) (font : Font) (maxWidth : Int)
    (w : Str) (ws : List Str) :
    wrapGo M font maxWidth (w :: ws) [] = wrapGo M font maxWidth ws w := by
  simp [wrapGo]

theorem wrapGo_cons_fit (M : Metrics) (font : Font) (maxWidth : Int)
    (w : Str) (ws : List Str) {line : Str} (hline : line ≠ [])
    (hfit : measure_width M font (line ++ ' ' :: w) ≤ maxWidth) :
    wrapGo M font maxWidth (w :: ws) line =
      wrapGo M font maxWidth ws (line ++ ' ' :: w) := by
  simp [wrapGo, hline, hfit]

theorem wrapGo_cons_nofit (M : Metrics) (font : Font) (maxWidth : Int)
    (w : Str) (ws : List Str) {line : Str} (hline : line ≠ [])
    (hfit : ¬ measure_width M font (line ++ ' ' :: w) ≤ maxWidth) :
    wrapGo M font maxWidth (w :: ws) line =
      line :: wrapGo M font maxWidth ws w := by
  simp [wrapGo, hline, hfit]

theorem wrapGo_join (M : Metrics) (font : Font) (maxWidth : Int) :
    ∀ (ws : List Str) (line : Str),
      (∀ w ∈ ws, w ≠ [] ∧ ' ' ∉ w) →
      ((wrapGo M font maxWidth ws line).map (splitChar ' ')).flatten =
        (if line = [] then [] else splitChar ' ' line) ++ ws := by
  intro ws
  induction ws with
  | nil =>
    intro line _
    by_cases h : line = [] <;> simp [wrapGo_nil, h]
  | cons w ws ih =>
    intro line hws
    obtain ⟨hwne, hwsp⟩ := hws w (by simp)
    have hrest : ∀ v ∈ ws, v ≠ [] ∧ ' ' ∉ v := fun v hv => hws v (by simp [hv])
    by_cases hline : line = []
    · subst hline
      rw [wrapGo_cons_empty, ih w hrest, splitChar_of_not_mem hwsp]
      simp [hwne]
    · by_cases hfit : measure_width M font (line ++ ' ' :: w) ≤ maxWidth
      · rw [wrapGo_cons_fit M font maxWidth w ws hline hfit, ih _ hrest,
          if_neg (by simp), if_neg hline, splitChar_append_sep,
          splitChar_of_not_mem hwsp]
        simp
      · rw [wrapGo_cons_nofit M font maxWidth w ws hline hfit]
        simp only [List.map_cons, List.flatten_cons]
        rw [ih w hrest, if_neg hwne, if_neg hline, splitChar_of_not_mem hwsp]
        simp

theorem wrapGo_bound (M : Metrics) (font : Font) (maxWidth : Int) :
    ∀ (ws : List Str) (line : Str),
      (∀ w ∈ ws, ' ' ∉ w) →
      (1 < (splitChar ' ' line).length → measure_width M font line ≤ maxWidth) →
      ∀ l ∈ wrapGo M font maxWidth ws line,
        1 < (splitChar ' ' l).length → measure_width M font l ≤ maxWidth := by
  intro ws
  induction ws with
  | nil =>
    intro line _ hline l hl
    rw [wrapGo_nil] at hl
    by_cases h : line = []
    · simp [h] at hl
    · simp [h] at hl
      subst hl
      exact hline
  | cons w ws ih =>
    intro line hws hline l hl
    have hwsp : ' ' ∉ w := hws w (by simp)
    have hrest : ∀ v ∈ ws, ' ' ∉ v := fun v hv => hws v (by simp [hv])
    by_cases hlemp : line = []
    · subst hlemp
      rw [wrapGo_cons_empty] at hl
      refine ih _ hrest ?_ l hl
      intro hgt
      rw [splitChar_of_not_mem hwsp] at hgt
      simp at hgt
    · by_cases hfit : measure_width M font (line ++ ' ' :: w) ≤ maxWidth
      · rw [wrapGo_cons_fit M font maxWidth w ws hlemp hfit] at hl
        exact ih _ hrest (fun _ => hfit) l hl
      · rw [wrapGo_cons_nofit M font maxWidth w ws hlemp hfit] at hl
        rcases List.mem_cons.mp hl with hcase | hcase
        · subst hcase; exact hline
        · refine ih _ hrest ?_ l hcase
          intro hgt
          rw [splitChar_of_not_mem hwsp] at hgt
          simp at hgt

/-! ## Claim C2: `wrap_text` -/

/-- C2, counterexample: for the text `" a"` (a leading space), whatever the
metrics, concatenating the words of the returned lines does not reproduce
the word sequence obtained by splitting the text on single spaces — the
empty leading word is dropped. -/
theorem wrap_text_c2_counterexample :
    ((wrap_text zeroMetrics (' ' :: 'a' :: []) (Font.mk 16 false false) 0).map
        (splitChar ' ')).flatten ≠ splitChar ' ' (' ' :: 'a' :: []) := by
  decide

/-- C2, amended: `wrap_text` splits the text on single spaces and appends a
word to the current line exactly when the extended line measures within
`max_width` or the line is empty (this is the definition of `wrapGo`).
For every text, every returned line with more than one word measures at
most `max_width`; and provided every word of the text is nonempty (no
leading, trailing or consecutive spaces), concatenating the words of the
returned lines in order reproduces the original word sequence. -/
theorem wrap_text_c2 (M : Metrics) (text : Str) (font : Font) (maxWidth : Int) :
    (∀ l ∈ wrap_text M text font maxWidth,
      1 < (splitChar ' ' l).length → measure_width M font l ≤ maxWidth) ∧
    ((∀ w ∈ splitChar ' ' text, w ≠ []) →
      ((wrap_text M text font maxWidth).map (splitChar ' ')).flatten =
        splitChar ' ' text) := by
  constructor
  · by_cases htext : text = []
    · subst htext
      intro l hl
      simp [wrap_text] at hl
    · rw [wrap_text, if_neg htext]
      exact wrapGo_bound M font maxWidth _ []
        (fun w hmem => splitChar_sep_not_mem ' ' text w hmem)
        (by simp [splitChar])
  · intro hw
    have htext : text ≠ [] := by
      intro h
      exact hw [] (by simp [h, splitChar]) rfl
    rw [wrap_text, if_neg htext]
    rw [wrapGo_join M font maxWidth _ []
      (fun w hmem => ⟨hw w hmem, splitChar_sep_not_mem ' ' text w hmem⟩)]
    simp

/-- C2, witness: the amended theorem applied to the text `"a b"` with unit
metrics and `max_width = 0`. -/
theorem wrap_text_c2_witness :
    (∀ l ∈ wrap_text unitMetrics ('a' :: ' ' :: 'b' :: []) (Font.mk 16 false false) 0,
      1 < (splitChar ' ' l).length →
        measure_width unitMetrics (Font.mk 16 false false) l ≤ 0) ∧
    ((wrap_text unitMetrics ('a' :: ' ' :: 'b' :: []) (Font.mk 16 false false) 0).map
        (splitChar ' ')).flatten = splitChar ' ' ('a' :: ' ' :: 'b' :: []) :=
  ⟨(wrap_text_c2 unitMetrics ('a' :: ' ' :: 'b' :: []) (Font.mk 16 false false) 0).1,
    (wrap_text_c2 unitMetrics ('a' :: ' ' :: 'b' :: []) (Font.mk 16 false false) 0).2
      (by decide)⟩

/-! ## Character-level lemmas for `norm_key` -/

theorem char_toNat_inj {c d : Char} (h : c.toNat = d.toNat) : c = d := by
  apply Char.eq_of_val_eq
  rw [UInt32.ext_iff]
  exact h

theorem char_ofNat_toNat {n : Nat} (h : n.isValidChar) : (Char.ofNat n).toNat = n := by
  simp [Char.ofNat, h, Char.toNat, Char.ofNatAux, UInt32.toNat, BitVec.toNat_ofNat]

theorem toLower_spec (c : Char) :
    Char.toLower c = c ∨
      (65 ≤ c.toNat ∧ c.toNat ≤ 90 ∧ (Char.toLower c).toNat = c.toNat + 32) := by
  unfold Char.toLower
  by_cases h : c.toNat ≥ 65 ∧ c.toNat ≤ 90
  · right
    refine ⟨h.1, h.2, ?_⟩
    rw [if_pos h]
    exact char_ofNat_toNat (Or.inl (by omega))
  · left
    rw [if_neg h]

theorem toLower_eq_of_not_upper {c : Char} (h : ¬ (65 ≤ c.toNat ∧ c.toNat ≤ 90)) :
    Char.toLower c = c := by
  unfold Char.toLower
  rw [if_neg h]

theorem toLower_toLower (c : Char) : Char.toLower (Char.toLower c) = Char.toLower c := by
  rcases toLower_spec c with h | ⟨h1, h2, h3⟩
  · rw [h]; exact h
  · exact toLower_eq_of_not_upper (by omega)

theorem pyWS_toLower (c : Char) : pyWS (Char.toLower c) = pyWS c := by
  rcases toLower_spec c with h | ⟨h1, h2, h3⟩
  · rw [h]
  · have hc : pyWS c = false := by simp [pyWS]; omega
    have hl : pyWS (Char.toLower c) = false := by simp [pyWS, h3]; omega
    rw [hc, hl]

theorem isQuote_toLower (c : Char) : isQuoteCh (Char.toLower c) = isQuoteCh c := by
  rcases toLower_spec c with h | ⟨h1, h2, h3⟩
  · rw [h]
  · have hc : isQuoteCh c = false := by simp [isQuoteCh]; omega
    have hl : isQuoteCh (Char.toLower c) = false := by simp [isQuoteCh, h3]; omega
    rw [hc, hl]

theorem normChar_id_low {c : Char} (h : c.toNat < 160) : normChar c = c := by
  unfold normChar
  have h1 : c ≠ '“' := by intro he; subst he; revert h; decide
  have h2 : c ≠ '”' := by intro he; subst he; revert h; decide
  have h3 : c ≠ '‘' := by intro he; subst he; revert h; decide
  have h4 : c ≠ '’' := by intro he; subst he; revert h; decide
  have h5 : c ≠ '–' := by intro he; subst he; revert h; decide
  have h6 : c ≠ '—' := by intro he; subst he; revert h; decide
  have h7 : c ≠ ' ' := by intro he; subst he; revert h; decide
  simp [h1, h2, h3, h4, h5, h6, h7]

theorem normChar_cases (c : Char) :
    normChar c = c ∨ normChar c = '"' ∨ normChar c = '\'' ∨
      normChar c = '-' ∨ normChar c = ' ' := by
  unfold normChar
  repeat' split <;> simp_all

theorem pyWS_normChar (c : Char) : pyWS (normChar c) = pyWS c := by
  unfold normChar
  repeat' split
  all_goals (try (rename_i hx; subst hx))
  all_goals rfl

theorem isQuote_normChar (c : Char) : isQuoteCh (normChar c) = isQuoteCh c := by
  unfold normChar
  repeat' split
  all_goals (try (rename_i hx; subst hx))
  all_goals rfl

theorem normChar_quoteCanon (c : Char) : normChar (quoteCanon c) = normChar c := by
  unfold quoteCanon
  repeat' split
  all_goals (try (rename_i hx; subst hx))
  all_goals rfl

theorem ws_not_quote {c : Char} (h : pyWS c = true) : isQuoteCh c = false := by
  simp [pyWS] at h
  simp [isQuoteCh]
  omega

theorem map_fix {f : Char → Char} {l : List Char} (h : ∀ c ∈ l, f c = c) :
    l.map f = l := by
  have h2 : List.map f l = List.map id l := List.map_congr_left (by simpa using h)
  rw [h2, List.map_id]

theorem toLower_pair {c d : Char} (h : Char.toLower c = Char.toLower d) :
    c = d ∨ (c.toNat < 160 ∧ d.toNat < 160) := by
  rcases toLower_spec c with hc | ⟨hc1, hc2, hc3⟩ <;>
    rcases toLower_spec d with hd | ⟨hd1, hd2, hd3⟩
  · left; rw [← hc, ← hd, h]
  · right
    constructor
    · have : c.toNat = (Char.toLower d).toNat := by rw [← h, hc]
      omega
    · omega
  · right
    constructor
    · omega
    · have : (Char.toLower c).toNat = d.toNat := by rw [h, hd]
      omega
  · left
    apply char_toNat_inj
    have : (Char.toLower c).toNat = (Char.toLower d).toNat := by rw [h]
    omega

theorem toLower_normChar_congr {c d : Char} (h : Char.toLower c = Char.toLower d) :
    Char.toLower (normChar c) = Char.toLower (normChar d) := by
  rcases toLower_pair h with h2 | ⟨h1, h2⟩
  · rw [h2]
  · rw [normChar_id_low h1, normChar_id_low h2]
    exact h

theorem normChar_fix_of_image (x : Char) :
    normChar (Char.toLower (normChar x)) = Char.toLower (normChar x) := by
  rcases normChar_cases x with h | h | h | h | h
  · rw [h]
    rcases toLower_spec x with h2 | ⟨h1, h2, h3⟩
    · rw [h2]; exact h
    · exact normChar_id_low (by omega)
  all_goals rw [h]; decide

/-! ## Lemmas about `collapseWS` -/

theorem collapseGo_cons_ws_true {c : Char} (h : pyWS c = true) (rest : Str) :
    collapseGo true (c :: rest) = collapseGo true rest := by
  simp [collapseGo, h]

theorem collapseGo_cons_ws_false {c : Char} (h : pyWS c = true) (rest : Str) :
    collapseGo false (c :: rest) = ' ' :: collapseGo true rest := by
  simp [collapseGo, h]

theorem collapseGo_cons_not_ws {c : Char} (h : pyWS c = false) (b : Bool) (rest : Str) :
    collapseGo b (c :: rest) = c :: collapseGo false rest := by
  cases b <;> simp [collapseGo, h]

theorem collapseGo_true_ws {W : Str} (hW : ∀ c ∈ W, pyWS c = true) (Y : Str) :
    collapseGo true (W ++ Y) = collapseGo true Y := by
  induction W with
  | nil => rfl
  | cons w W ih =>
    have hw : pyWS w = true := hW w (by simp)
    rw [List.cons_append, collapseGo_cons_ws_true hw]
    exact ih (fun c hc => hW c (by simp [hc]))

theorem collapse_mid {W : Str} (hne : W ≠ []) (hW : ∀ c ∈ W, pyWS c = true) :
    ∀ (X : Str) (inRun : Bool) (Y : Str),
      collapseGo inRun (X ++ W ++ Y) = collapseGo inRun (X ++ ' ' :: Y) := by
  intro X
  induction X with
  | nil =>
    intro inRun Y
    cases W with
    | nil => exact absurd rfl hne
    | cons w W2 =>
      have hw : pyWS w = true := hW w (by simp)
      have hW2 : ∀ c ∈ W2, pyWS c = true := fun c hc => hW c (by simp [hc])
      have hsp : pyWS ' ' = true := by decide
      cases inRun
      · simp only [List.nil_append, List.cons_append]
        rw [collapseGo_cons_ws_false hw, collapseGo_cons_ws_false hsp,
          collapseGo_true_ws hW2]
      · simp only [List.nil_append, List.cons_append]
        rw [collapseGo_cons_ws_true hw, collapseGo_cons_ws_true hsp,
          collapseGo_true_ws hW2]
  | cons c X2 ih =>
    intro inRun Y
    simp only [List.cons_append]
    by_cases hc : pyWS c
    · cases inRun
      · rw [collapseGo_cons_ws_false hc, collapseGo_cons_ws_false hc, ih true Y]
      · rw [collapseGo_cons_ws_true hc, collapseGo_cons_ws_true hc, ih true Y]
    · rw [collapseGo_cons_not_ws (by simpa using hc), collapseGo_cons_not_ws (by simpa using hc),
        ih false Y]

theorem collapse_idem_aux : ∀ Y : Str,
    collapseGo false (collapseGo false Y) = collapseGo false Y ∧
    collapseGo true (collapseGo true Y) = collapseGo true Y := by
  intro Y
  induction Y with
  | nil => exact ⟨rfl, rfl⟩
  | cons c rest ih =>
    by_cases hc : pyWS c
    · have hsp : pyWS ' ' = true := by decide
      constructor
      · rw [collapseGo_cons_ws_false hc, collapseGo_cons_ws_false hsp, ih.2]
      · rw [collapseGo_cons_ws_true hc, ih.2]
    · have hc2 : pyWS c = false := by simpa using hc
      constructor
      · rw [collapseGo_cons_not_ws hc2 false, collapseGo_cons_not_ws hc2 false, ih.1]
      · rw [collapseGo_cons_not_ws hc2 true, collapseGo_cons_not_ws hc2 true, ih.1]

theorem collapse_idem (Y : Str) :
    collapseWS (collapseWS Y) = collapseWS Y := (collapse_idem_aux Y).1

theorem mem_collapseGo {c : Char} : ∀ {b : Bool} {Y : Str},
    c ∈ collapseGo b Y → c = ' ' ∨ c ∈ Y := by
  intro b Y
  induction Y generalizing b with
  | nil => intro h; simp [collapseGo] at h
  | cons d rest ih =>
    intro h
    by_cases hd : pyWS d
    · cases b with
      | true =>
        rw [collapseGo_cons_ws_true hd] at h
        rcases ih h with h2 | h2
        · exact Or.inl h2
        · exact Or.inr (by simp [h2])
      | false =>
        rw [collapseGo_cons_ws_false hd] at h
        rcases List.mem_cons.mp h with h2 | h2
        · exact Or.inl h2
        · rcases ih h2 with h3 | h3
          · exact Or.inl h3
          · exact Or.inr (by simp [h3])
    · rw [collapseGo_cons_not_ws (by simpa using hd)] at h
      rcases List.mem_cons.mp h with h2 | h2
      · exact Or.inr (by simp [h2])
      · rcases ih h2 with h3 | h3
        · exact Or.inl h3
        · exact Or.inr (by simp [h3])

theorem collapse_true_nil_iff {Y : Str} :
    collapseGo true Y = [] ↔ ∀ c ∈ Y, pyWS c = true := by
  induction Y with
  | nil => simp [collapseGo]
  | cons c rest ih =>
    by_cases hc : pyWS c
    · rw [collapseGo_cons_ws_true hc, ih]
      constructor
      · intro h d hd
        rcases List.mem_cons.mp hd with h2 | h2
        · subst h2; exact hc
        · exact h d h2
      · intro h d hd
        exact h d (by simp [hd])
    · rw [collapseGo_cons_not_ws (by simpa using hc)]
      simp only [List.cons_ne_nil, false_iff]
      intro h
      exact hc (h c (by simp))

theorem collapse_false_ne_nil {Y : Str} (h : Y ≠ []) :
    collapseGo false Y ≠ [] := by
  cases Y with
  | nil => exact absurd rfl h
  | cons c rest =>
    by_cases hc : pyWS c
    · rw [collapseGo_cons_ws_false hc]; simp
    · rw [collapseGo_cons_not_ws (by simpa using hc)]; simp

theorem getLast?_cons_of_ne {c : Char} {T : Str} (h : T ≠ []) :
    (c :: T).getLast? = T.getLast? := by
  cases T with
  | nil => exact absurd rfl h
  | cons a r => exact List.getLast?_cons_cons

theorem collapse_no_trail :
    ∀ (Y : Str) (b : Bool),
      (∀ c, Y.getLast? = some c → pyWS c = false) →
      ∀ c, (collapseGo b Y).getLast? = some c → pyWS c = false := by
  intro Y
  induction Y with
  | nil => intro b _ c hc; simp [collapseGo] at hc
  | cons d rest ih =>
    intro b hY c hc
    by_cases hrest : rest = []
    · subst hrest
      have hd : pyWS d = false := hY d (by simp)
      rw [collapseGo_cons_not_ws hd] at hc
      simp [collapseGo] at hc
      subst hc
      exact hd
    · have hYr : ∀ e, rest.getLast? = some e → pyWS e = false := by
        intro e he
        exact hY e (by rw [getLast?_cons_of_ne hrest]; exact he)
      have hrest_not_all : ¬ (∀ e ∈ rest, pyWS e = true) := by
        intro hall
        cases hlast : rest.getLast? with
        | none => exact hrest (by simpa using hlast)
        | some e =>
          have hfalse := hYr e hlast
          have hmem : e ∈ rest := List.mem_of_mem_getLast? hlast
          rw [hall e hmem] at hfalse
          exact Bool.noConfusion hfalse
      by_cases hd : pyWS d
      · have hT : collapseGo true rest ≠ [] := by
          intro hnil
          exact hrest_not_all (collapse_true_nil_iff.mp hnil)
        cases b
        · rw [collapseGo_cons_ws_false hd] at hc
          rw [getLast?_cons_of_ne hT] at hc
          exact ih true hYr c hc
        · rw [collapseGo_cons_ws_true hd] at hc
          exact ih true hYr c hc
      · have hT : collapseGo false rest ≠ [] := collapse_false_ne_nil hrest
        rw [collapseGo_cons_not_ws (by simpa using hd)] at hc
        rw [getLast?_cons_of_ne hT] at hc
        exact ih false hYr c hc

theorem collapse_no_lead {Y : Str}
    (h : ∀ c, Y.head? = some c → pyWS c = false) :
    ∀ c, (collapseWS Y).head? = some c → pyWS c = false := by
  intro c hc
  cases Y with
  | nil => simp [collapseWS, collapseGo] at hc
  | cons d rest =>
    have hd : pyWS d = false := h d (by simp)
    rw [collapseWS, collapseGo_cons_not_ws hd] at hc
    simp at hc
    subst hc
    exact hd

/-! ## Lemmas about `pyStrip` -/

theorem head?_dropWhile {p : Char → Bool} : ∀ {l : Str} {c : Char},
    (l.dropWhile p).head? = some c → p c = false := by
  intro l
  induction l with
  | nil => intro c h; simp at h
  | cons d rest ih =>
    intro c h
    rw [List.dropWhile_cons] at h
    by_cases hd : p d
    · rw [if_pos hd] at h
      exact ih h
    · rw [if_neg hd] at h
      simp at h
      subst h
      simpa using hd

theorem mem_dropWhile {p : Char → Bool} {l : Str} {c : Char}
    (h : c ∈ l.dropWhile p) : c ∈ l :=
  (List.dropWhile_suffix p).subset h

theorem mem_pyStrip {s : Str} {c : Char} (h : c ∈ pyStrip s) : c ∈ s := by
  unfold pyStrip pyRstrip pyLstrip at h
  rw [List.mem_reverse] at h
  have h1 := mem_dropWhile h
  rw [List.mem_reverse] at h1
  exact mem_dropWhile h1

theorem pyRstrip_isPre (x : Str) : pyRstrip x <+: x := by
  have h := List.dropWhile_suffix (l := x.reverse) pyWS
  have h2 : (x.reverse.dropWhile pyWS).reverse <+: x.reverse.reverse :=
    List.reverse_prefix.mpr h
  simpa using h2

theorem pre_head? {r x : Str} (h : r <+: x) {c : Char} (hc : r.head? = some c) :
    x.head? = some c := by
  obtain ⟨t, rfl⟩ := h
  cases r with
  | nil => simp at hc
  | cons a r2 => simpa using hc

theorem pyStrip_no_lead {s : Str} {c : Char}
    (h : (pyStrip s).head? = some c) : pyWS c = false := by
  have hx : (pyLstrip s).head? = some c := pre_head? (pyRstrip_isPre (pyLstrip s)) h
  exact head?_dropWhile hx

theorem pyStrip_no_trail {s : Str} {c : Char}
    (h : (pyStrip s).getLast? = some c) : pyWS c = false := by
  unfold pyStrip pyRstrip at h
  rw [← List.head?_reverse, List.reverse_reverse] at h
  exact head?_dropWhile h

theorem dropWhile_eq_self_of_head {p : Char → Bool} {l : Str}
    (h : ∀ c, l.head? = some c → p c = false) : l.dropWhile p = l := by
  cases l with
  | nil => rfl
  | cons a r =>
    rw [List.dropWhile_cons, if_neg (by simp [h a rfl])]

theorem pyStrip_eq_self {r : Str}
    (h1 : ∀ c, r.head? = some c → pyWS c = false)
    (h2 : ∀ c, r.getLast? = some c → pyWS c = false) : pyStrip r = r := by
  unfold pyStrip pyLstrip pyRstrip
  rw [dropWhile_eq_self_of_head h1]
  rw [dropWhile_eq_self_of_head (fun c hc => h2 c (by rwa [List.head?_reverse] at hc))]
  simp

theorem lstrip_append_ws {P : Str} (hP : ∀ c ∈ P, pyWS c = true) (z : Str) :
    (P ++ z).dropWhile pyWS = z.dropWhile pyWS := by
  induction P with
  | nil => rfl
  | cons a P ih =>
    rw [List.cons_append, List.dropWhile_cons, if_pos (by simp [hP a (by simp)])]
    exact ih (fun c hc => hP c (by simp [hc]))

theorem pyRstrip_append_ws {Q : Str} (hQ : ∀ c ∈ Q, pyWS c = true) (z : Str) :
    pyRstrip (z ++ Q) = pyRstrip z := by
  unfold pyRstrip
  rw [List.reverse_append, lstrip_append_ws (fun c hc => hQ c (by simpa using hc))]

theorem pyRstrip_append_of_not_ws {B : Str} (hB : ¬ ∀ c ∈ B, pyWS c = true) (X : Str) :
    pyRstrip (X ++ B) = X ++ pyRstrip B := by
  unfold pyRstrip
  rw [List.reverse_append, List.dropWhile_append]
  have hne : B.reverse.dropWhile pyWS ≠ [] := by
    rw [Ne, List.dropWhile_eq_nil_iff]
    intro hall
    exact hB (fun c hc => hall c (by simpa using hc))
  simp only [List.isEmpty_iff, if_neg hne]
  rw [List.reverse_append]
  simp

theorem pyStrip_edge {P Q : Str} (hP : ∀ c ∈ P, pyWS c = true)
    (hQ : ∀ c ∈ Q, pyWS c = true) (z : Str) :
    pyStrip (P ++ z ++ Q) = pyStrip z := by
  unfold pyStrip pyLstrip
  rw [List.append_assoc, lstrip_append_ws hP]
  by_cases hz : (z.dropWhile pyWS) = []
  · rw [List.dropWhile_append, hz]
    simp only [List.isEmpty_nil, if_pos rfl]
    rw [List.dropWhile_eq_nil_iff.mpr (fun c hc => hQ c hc)]
    simp [pyRstrip]
  · rw [List.dropWhile_append]
    simp only [List.isEmpty_iff, if_neg hz]
    exact pyRstrip_append_ws hQ _

/-! ## Forall₂ transport lemmas (ASCII-case invariance) -/

theorem forall2_map {R S : Char → Char → Prop} {f g : Char → Char} {s t : Str}
    (h : List.Forall₂ R s t) (hfg : ∀ a b, R a b → S (f a) (g b)) :
    List.Forall₂ S (s.map f) (t.map g) := by
  induction h with
  | nil => exact List.Forall₂.nil
  | cons hab _ ih => exact List.Forall₂.cons (hfg _ _ hab) ih

theorem forall2_dropWhile {R : Char → Char → Prop} {p : Char → Bool}
    (hp : ∀ a b, R a b → p a = p b) :
    ∀ {s t : Str}, List.Forall₂ R s t →
      List.Forall₂ R (s.dropWhile p) (t.dropWhile p) := by
  intro s t h
  induction h with
  | nil => exact List.Forall₂.nil
  | cons hab htl ih =>
    rename_i a b s2 t2
    rw [List.dropWhile_cons, List.dropWhile_cons]
    by_cases ha : p a
    · rw [if_pos ha, if_pos (by rw [← hp a b hab]; exact ha)]
      exact ih
    · rw [if_neg ha, if_neg (by rw [← hp a b hab]; exact ha)]
      exact List.Forall₂.cons hab htl

theorem forall2_toLower_eq {s t : Str}
    (h : List.Forall₂ (fun c d => Char.toLower c = Char.toLower d) s t) :
    s.map Char.toLower = t.map Char.toLower := by
  induction h with
  | nil => rfl
  | cons hab _ ih => simp [hab, ih]

/-! ## The five invariance properties of `norm_key` -/

theorem norm_key_idem_of_no_quote {s : Str} (hq : ∀ c ∈ s, isQuoteCh c = false) :
    norm_key (norm_key s) = norm_key s := by
  have hqN : ∀ c ∈ normalize_quotes s, isQuoteCh c = false := by
    intro c hc
    obtain ⟨x, hx, rfl⟩ := List.mem_map.mp hc
    rw [isQuote_normChar]
    exact hq x hx
  have hqS : ∀ c ∈ pyStrip (normalize_quotes s), isQuoteCh c = false :=
    fun c hc => hqN c (mem_pyStrip hc)
  have hqL : ∀ c ∈ lowerPy (pyStrip (normalize_quotes s)), isQuoteCh c = false := by
    intro c hc
    obtain ⟨x, hx, rfl⟩ := List.mem_map.mp hc
    rw [isQuote_toLower]
    exact hqS x hx
  have hfilter : (lowerPy (pyStrip (normalize_quotes s))).filter (fun c => !isQuoteCh c) =
      lowerPy (pyStrip (normalize_quotes s)) :=
    List.filter_eq_self.mpr (fun c hc => by rw [hqL c hc]; rfl)
  have hr : norm_key s = collapseWS (lowerPy (pyStrip (normalize_quotes s))) := by
    rw [norm_key, hfilter]
  have hLlead : ∀ c, (lowerPy (pyStrip (normalize_quotes s))).head? = some c →
      pyWS c = false := by
    intro c hc
    rw [lowerPy, List.head?_map] at hc
    cases hS : (pyStrip (normalize_quotes s)).head? with
    | none => rw [hS] at hc; simp at hc
    | some d =>
      rw [hS] at hc
      simp at hc
      rw [← hc, pyWS_toLower]
      exact pyStrip_no_lead hS
  have hLtrail : ∀ c, (lowerPy (pyStrip (normalize_quotes s))).getLast? = some c →
      pyWS c = false := by
    intro c hc
    rw [lowerPy, List.getLast?_map] at hc
    cases hS : (pyStrip (normalize_quotes s)).getLast? with
    | none => rw [hS] at hc; simp at hc
    | some d =>
      rw [hS] at hc
      simp at hc
      rw [← hc, pyWS_toLower]
      exact pyStrip_no_trail hS
  have hrlead := collapse_no_lead hLlead
  have hrtrail := collapse_no_trail (lowerPy (pyStrip (normalize_quotes s))) false hLtrail
  have hmem : ∀ c ∈ norm_key s, c = ' ' ∨
      c ∈ lowerPy (pyStrip (normalize_quotes s)) := by
    intro c hc
    rw [hr] at hc
    exact mem_collapseGo hc
  have hnorm_r : normalize_quotes (norm_key s) = norm_key s := by
    apply map_fix
    intro c hc
    rcases hmem c hc with rfl | hcL
    · decide
    · obtain ⟨x, hx, rfl⟩ := List.mem_map.mp hcL
      obtain ⟨x0, _, rfl⟩ := List.mem_map.mp (mem_pyStrip hx)
      exact normChar_fix_of_image x0
  have hstrip_r : pyStrip (norm_key s) = norm_key s := by
    apply pyStrip_eq_self
    · intro c hc; rw [hr] at hc; exact hrlead c hc
    · intro c hc; rw [hr] at hc; exact hrtrail c hc
  have hlower_r : lowerPy (norm_key s) = norm_key s := by
    apply map_fix
    intro c hc
    rcases hmem c hc with rfl | hcL
    · decide
    · obtain ⟨x, _, rfl⟩ := List.mem_map.mp hcL
      exact toLower_toLower x
  have hfilter_r : (norm_key s).filter (fun c => !isQuoteCh c) = norm_key s := by
    apply List.filter_eq_self.mpr
    intro c hc
    rcases hmem c hc with rfl | hcL
    · decide
    · rw [hqL c hcL]; rfl
  calc norm_key (norm_key s)
      = collapseWS (norm_key s) := by
        rw [norm_key, hnorm_r, hstrip_r, hlower_r, hfilter_r]
    _ = norm_key s := by rw [hr, collapse_idem]

theorem norm_key_edge_ws {pre post : Str} (hpre : ∀ c ∈ pre, pyWS c = true)
    (hpost : ∀ c ∈ post, pyWS c = true) (s : Str) :
    norm_key (pre ++ s ++ post) = norm_key s := by
  have hP : ∀ c ∈ normalize_quotes pre, pyWS c = true := by
    intro c hc
    obtain ⟨x, hx, rfl⟩ := List.mem_map.mp hc
    rw [pyWS_normChar]
    exact hpre x hx
  have hQ : ∀ c ∈ normalize_quotes post, pyWS c = true := by
    intro c hc
    obtain ⟨x, hx, rfl⟩ := List.mem_map.mp hc
    rw [pyWS_normChar]
    exact hpost x hx
  have hsplit : normalize_quotes (pre ++ s ++ post) =
      normalize_quotes pre ++ normalize_quotes s ++ normalize_quotes post := by
    simp [normalize_quotes]
  rw [norm_key, norm_key, hsplit, pyStrip_edge hP hQ]

theorem norm_key_mid_ws {w : Str} (hne : w ≠ []) (hws : ∀ c ∈ w, pyWS c = true)
    (a b : Str) : norm_key (a ++ w ++ b) = norm_key (a ++ ' ' :: b) := by
  have hW : ∀ c ∈ normalize_quotes w, pyWS c = true := by
    intro c hc
    obtain ⟨x, hx, rfl⟩ := List.mem_map.mp hc
    rw [pyWS_normChar]
    exact hws x hx
  have hWne : normalize_quotes w ≠ [] := by
    intro h
    exact hne (by simpa [normalize_quotes] using h)
  have hsp : normChar ' ' = ' ' := by decide
  have hsplit1 : normalize_quotes (a ++ w ++ b) =
      normalize_quotes a ++ normalize_quotes w ++ normalize_quotes b := by
    simp [normalize_quotes]
  have hsplit2 : normalize_quotes (a ++ ' ' :: b) =
      normalize_quotes a ++ ' ' :: normalize_quotes b := by
    simp [normalize_quotes, hsp]
  have hspws : ∀ c ∈ [' '], pyWS c = true := by
    intro c hc
    simp at hc
    subst hc
    decide
  rw [norm_key, norm_key, hsplit1, hsplit2]
  by_cases hA : ∀ c ∈ normalize_quotes a, pyWS c = true
  · by_cases hB : ∀ c ∈ normalize_quotes b, pyWS c = true
    · have h1 : pyStrip (normalize_quotes a ++ normalize_quotes w ++ normalize_quotes b)
          = pyStrip [] := by
        have := pyStrip_edge (P := normalize_quotes a ++ normalize_quotes w)
          (Q := normalize_quotes b)
          (by intro c hc
              rcases List.mem_append.mp hc with h | h
              · exact hA c h
              · exact hW c h) hB ([])
        simpa using this
      have h2 : pyStrip (normalize_quotes a ++ ' ' :: normalize_quotes b)
          = pyStrip [] := by
        have := pyStrip_edge (P := normalize_quotes a ++ [' '])
          (Q := normalize_quotes b)
          (by intro c hc
              rcases List.mem_append.mp hc with h | h
              · exact hA c h
              · exact hspws c h) hB ([])
        simpa using this
      rw [h1, h2]
    · have h1 : pyStrip (normalize_quotes a ++ normalize_quotes w ++ normalize_quotes b)
          = pyStrip (normalize_quotes b) := by
        have := pyStrip_edge (P := normalize_quotes a ++ normalize_quotes w)
          (Q := ([] : Str))
          (by intro c hc
              rcases List.mem_append.mp hc with h | h
              · exact hA c h
              · exact hW c h) (by simp) (normalize_quotes b)
        simpa using this
      have h2 : pyStrip (normalize_quotes a ++ ' ' :: normalize_quotes b)
          = pyStrip (normalize_quotes b) := by
        have := pyStrip_edge (P := normalize_quotes a ++ [' '])
          (Q := ([] : Str))
          (by intro c hc
              rcases List.mem_append.mp hc with h | h
              · exact hA c h
              · exact hspws c h) (by simp) (normalize_quotes b)
        simpa using this
      rw [h1, h2]
  · by_cases hB : ∀ c ∈ normalize_quotes b, pyWS c = true
    · have h1 : pyStrip (normalize_quotes a ++ normalize_quotes w ++ normalize_quotes b)
          = pyStrip (normalize_quotes a) := by
        have := pyStrip_edge (P := ([] : Str))
          (Q := normalize_quotes w ++ normalize_quotes b)
          (by simp)
          (by intro c hc
              rcases List.mem_append.mp hc with h | h
              · exact hW c h
              · exact hB c h) (normalize_quotes a)
        simpa [List.append_assoc] using this
      have h2 : pyStrip (normalize_quotes a ++ ' ' :: normalize_quotes b)
          = pyStrip (normalize_quotes a) := by
        have := pyStrip_edge (P := ([] : Str))
          (Q := ' ' :: normalize_quotes b)
          (by simp)
          (by intro c hc
              rcases List.mem_cons.mp hc with h | h
              · subst h; decide
              · exact hB c h) (normalize_quotes a)
        simpa [List.append_assoc] using this
      rw [h1, h2]
    · have hdla : (normalize_quotes a).dropWhile pyWS ≠ [] := by
        rw [Ne, List.dropWhile_eq_nil_iff]
        exact hA
      have hstrip1 : pyStrip (normalize_quotes a ++ normalize_quotes w ++ normalize_quotes b)
          = (normalize_quotes a).dropWhile pyWS ++ normalize_quotes w ++
            pyRstrip (normalize_quotes b) := by
        unfold pyStrip pyLstrip
        rw [List.append_assoc, List.dropWhile_append]
        simp only [List.isEmpty_iff, if_neg hdla]
        rw [← List.append_assoc]
        have := pyRstrip_append_of_not_ws hB
          ((normalize_quotes a).dropWhile pyWS ++ normalize_quotes w)
        rw [this]
      have hstrip2 : pyStrip (normalize_quotes a ++ ' ' :: normalize_quotes b)
          = (normalize_quotes a).dropWhile pyWS ++ [' '] ++
            pyRstrip (normalize_quotes b) := by
        unfold pyStrip pyLstrip
        have hcons : ' ' :: normalize_quotes b = [' '] ++ normalize_quotes b := rfl
        rw [hcons, ← List.append_assoc, List.append_assoc, List.dropWhile_append]
        simp only [List.isEmpty_iff, if_neg hdla]
        rw [← List.append_assoc]
        have := pyRstrip_append_of_not_ws hB
          ((normalize_quotes a).dropWhile pyWS ++ [' '])
        rw [this]
      rw [hstrip1, hstrip2]
      have hdistr : ∀ X W Y : Str,
          ((lowerPy (X ++ W ++ Y)).filter (fun c => !isQuoteCh c)) =
            (lowerPy X).filter (fun c => !isQuoteCh c) ++
            (lowerPy W).filter (fun c => !isQuoteCh c) ++
            (lowerPy Y).filter (fun c => !isQuoteCh c) := by
        intro X W Y
        simp [lowerPy, List.filter_append]
      rw [hdistr, hdistr]
      have hWf : ∀ c ∈ (lowerPy (normalize_quotes w)).filter (fun c => !isQuoteCh c),
          pyWS c = true := by
        intro c hc
        have hc2 := List.mem_of_mem_filter hc
        obtain ⟨x, hx, rfl⟩ := List.mem_map.mp hc2
        rw [pyWS_toLower]
        exact hW x hx
      have hWfne : (lowerPy (normalize_quotes w)).filter (fun c => !isQuoteCh c) ≠ [] := by
        cases hw : normalize_quotes w with
        | nil => exact absurd hw hWne
        | cons x xs =>
          have hxws : pyWS (Char.toLower x) = true := by
            rw [pyWS_toLower]
            exact hW x (by simp [hw])
          have hxq : isQuoteCh (Char.toLower x) = false :=
            ws_not_quote hxws
          simp [lowerPy, hw, List.filter_cons, hxq]
      have hspf : (lowerPy [' ']).filter (fun c => !isQuoteCh c) = [' '] := by decide
      rw [hspf]
      have hmid1 := collapse_mid hWfne hWf
        ((lowerPy ((normalize_quotes a).dropWhile pyWS)).filter (fun c => !isQuoteCh c))
        false
        ((lowerPy (pyRstrip (normalize_quotes b))).filter (fun c => !isQuoteCh c))
      have hmid2 := collapse_mid (W := [' ']) (by simp) hspws
        ((lowerPy ((normalize_quotes a).dropWhile pyWS)).filter (fun c => !isQuoteCh c))
        false
        ((lowerPy (pyRstrip (normalize_quotes b))).filter (fun c => !isQuoteCh c))
      rw [collapseWS, collapseWS, hmid1, hmid2]

theorem norm_key_case_invariant {s t : Str}
    (h : List.Forall₂ (fun c d => Char.toLower c = Char.toLower d) s t) :
    norm_key s = norm_key t := by
  have hp : ∀ a b : Char, Char.toLower a = Char.toLower b → pyWS a = pyWS b := by
    intro a b hab
    rw [← pyWS_toLower a, hab, pyWS_toLower]
  have h1 : List.Forall₂ (fun c d => Char.toLower c = Char.toLower d)
      (normalize_quotes s) (normalize_quotes t) :=
    forall2_map h (fun a b hab => toLower_normChar_congr hab)
  have h2 := forall2_dropWhile hp h1
  have h3 := forall2_dropWhile hp (List.rel_reverse h2)
  have h4 := List.rel_reverse h3
  have h5 : lowerPy (pyStrip (normalize_quotes s)) =
      lowerPy (pyStrip (normalize_quotes t)) := forall2_toLower_eq h4
  rw [norm_key, norm_key, h5]

theorem norm_key_quote_invariant {s t : Str}
    (h : s.map quoteCanon = t.map quoteCanon) : norm_key s = norm_key t := by
  have h1 : normalize_quotes s = normalize_quotes t := by
    have hs : normalize_quotes s = (s.map quoteCanon).map normChar := by
      rw [normalize_quotes, List.map_map]
      exact (List.map_congr_left (fun c _ => (normChar_quoteCanon c).symm))
    have ht : normalize_quotes t = (t.map quoteCanon).map normChar := by
      rw [normalize_quotes, List.map_map]
      exact (List.map_congr_left (fun c _ => (normChar_quoteCanon c).symm))
    rw [hs, ht, h]
  rw [norm_key, norm_key, h1]

/-! ## Claim C10: `norm_key` -/

/-- C10, counterexample: `norm_key` is not idempotent.  For the input
`"\" a\""` (a quoted string with a space after the opening quote), the
first application strips nothing (the ends are quotes), removes the quotes
and leaves a leading space; the second application strips that space, so
the two results differ. -/
theorem norm_key_c10_counterexample :
    norm_key (norm_key ('"' :: ' ' :: 'a' :: '"' :: [])) ≠
      norm_key ('"' :: ' ' :: 'a' :: '"' :: []) := by
  decide

/-- C10, amended: `norm_key` is idempotent on strings containing no quote
characters (straight or curly) — in general quote removal can expose
leading/trailing whitespace that only a second application strips, see the
counterexample — and it is canonicalizing exactly as claimed: the key is
unchanged by leading/trailing whitespace, by the choice of interior
whitespace runs, by ASCII letter case, and by curly versus straight
quotes. -/
theorem norm_key_c10 :
    (∀ s : Str, (∀ c ∈ s, isQuoteCh c = false) →
      norm_key (norm_key s) = norm_key s) ∧
    (∀ (s pre post : Str), (∀ c ∈ pre, pyWS c = true) →
      (∀ c ∈ post, pyWS c = true) →
      norm_key (pre ++ s ++ post) = norm_key s) ∧
    (∀ (a b w1 w2 : Str), w1 ≠ [] → w2 ≠ [] →
      (∀ c ∈ w1, pyWS c = true) → (∀ c ∈ w2, pyWS c = true) →
      norm_key (a ++ w1 ++ b) = norm_key (a ++ w2 ++ b)) ∧
    (∀ s t : Str, List.Forall₂ (fun c d => Char.toLower c = Char.toLower d) s t →
      norm_key s = norm_key t) ∧
    (∀ s t : Str, s.map quoteCanon = t.map quoteCanon →
      norm_key s = norm_key t) := by
  refine ⟨?_, ?_, ?_, ?_, ?_⟩
  · intro s hq
    exact norm_key_idem_of_no_quote hq
  · intro s pre post hpre hpost
    exact norm_key_edge_ws hpre hpost s
  · intro a b w1 w2 h1 h2 hw1 hw2
    rw [norm_key_mid_ws h1 hw1 a b, norm_key_mid_ws h2 hw2 a b]
  · intro s t h
    exact norm_key_case_invariant h
  · intro s t h
    exact norm_key_quote_invariant h

/-- C10, witness: each invariance of the amended theorem applied at a
concrete input: idempotence on `"ab"`, stripping of `" ab\t"`, the interior
runs `"a b"` versus `"a  b"` (tab), the case variants `"Ab"` and `"aB"`,
and the quote variants `"“a”"` and `"\"a\""`. -/
theorem norm_key_c10_witness :
    norm_key (norm_key ('a' :: 'b' :: [])) = norm_key ('a' :: 'b' :: []) ∧
    norm_key (' ' :: 'a' :: 'b' :: '\t' :: []) = norm_key ('a' :: 'b' :: []) ∧
    norm_key ('a' :: ' ' :: 'b' :: []) = norm_key ('a' :: ' ' :: '\t' :: 'b' :: []) ∧
    norm_key ('A' :: 'b' :: []) = norm_key ('a' :: 'B' :: []) ∧
    norm_key ('“' :: 'a' :: '”' :: []) = norm_key ('"' :: 'a' :: '"' :: []) :=
  ⟨norm_key_c10.1 ('a' :: 'b' :: []) (by decide),
   norm_key_c10.2.1 ('a' :: 'b' :: []) (' ' :: []) ('\t' :: []) (by decide) (by decide),
   norm_key_c10.2.2.1 ('a' :: []) ('b' :: []) (' ' :: []) (' ' :: '\t' :: [])
     (by decide) (by decide) (by decide) (by decide),
   norm_key_c10.2.2.2.1 ('A' :: 'b' :: []) ('a' :: 'B' :: [])
     (List.Forall₂.cons (by decide) (List.Forall₂.cons (by decide) List.Forall₂.nil)),
   norm_key_c10.2.2.2.2 ('“' :: 'a' :: '”' :: []) ('"' :: 'a' :: '"' :: []) (by decide)⟩


/-! ## Lemmas about `save_overlay` -/

theorem so_dict (decode : Str → Option Str) (config : JVal) (d : List (Str × JVal)) :
    save_overlay decode (some (.jDict d)) config =
      if truthy (JVal.jDict d) = false then
        (.resp400 "No data provided".toList, config, [])
      else if truthy (dictGetD d "itemName".toList .jNull) = false then
        (.resp400 "Item name required".toList, config, [])
      else if typeOK d = false then
        (.resp400 "Invalid item type".toList, config, [])
      else saveCore decode d config := rfl

theorem saveCore_not400 (decode : Str → Option Str) (d : List (Str × JVal)) (config : JVal) :
    (saveCore decode d config).1.is400 = false := by
  unfold saveCore
  split
  · dsimp only
    split
    · rfl
    · split
      · rfl
      · rfl
  · rfl

theorem save_overlay_is400_iff (decode : Str → Option Str) (config : JVal)
    (d : List (Str × JVal)) :
    (save_overlay decode (some (.jDict d)) config).1.is400 = true ↔
      (truthy (JVal.jDict d) = false ∨
        truthy (dictGetD d "itemName".toList .jNull) = false ∨ typeOK d = false) := by
  rw [so_dict]
  by_cases h1 : truthy (JVal.jDict d) = false
  · rw [if_pos h1]
    exact ⟨fun _ => Or.inl h1, fun _ => rfl⟩
  · rw [if_neg h1]
    by_cases h2 : truthy (dictGetD d "itemName".toList .jNull) = false
    · rw [if_pos h2]
      exact ⟨fun _ => Or.inr (Or.inl h2), fun _ => rfl⟩
    · rw [if_neg h2]
      by_cases h3 : typeOK d = false
      · rw [if_pos h3]
        exact ⟨fun _ => Or.inr (Or.inr h3), fun _ => rfl⟩
      · rw [if_neg h3, saveCore_not400]
        constructor
        · intro habs
          exact Bool.noConfusion habs
        · rintro (h | h | h)
          · exact absurd h h1
          · exact absurd h h2
          · exact absurd h h3

theorem so_nondict_pure (decode : Str → Option Str) (config : JVal) (b : JVal)
    (hb : ∀ d, b ≠ .jDict d) :
    (save_overlay decode (some b) config).2.1 = config ∧
    (save_overlay decode (some b) config).2.2 = [] := by
  have heq : save_overlay decode (some b) config =
      if truthy b = false then (.resp400 "No data provided".toList, config, [])
      else (.resp500, config, []) := by
    cases b with
    | jDict d => exact absurd rfl (hb d)
    | jNull => rfl
    | jBool x => rfl
    | jInt x => rfl
    | jStr x => rfl
    | jList x => rfl
  rw [heq]
  by_cases htr : truthy b = false
  · rw [if_pos htr]
    exact ⟨rfl, rfl⟩
  · rw [if_neg htr]
    exact ⟨rfl, rfl⟩

theorem save_overlay_400_pure (decode : Str → Option Str) (body : Option JVal)
    (config : JVal) (h : (save_overlay decode body config).1.is400 = true) :
    (save_overlay decode body config).2.1 = config ∧
    (save_overlay decode body config).2.2 = [] := by
  match body with
  | none => exact ⟨rfl, rfl⟩
  | some (.jDict d) =>
    rw [so_dict] at h ⊢
    by_cases h1 : truthy (JVal.jDict d) = false
    · rw [if_pos h1]
      exact ⟨rfl, rfl⟩
    · rw [if_neg h1] at h ⊢
      by_cases h2 : truthy (dictGetD d "itemName".toList .jNull) = false
      · rw [if_pos h2]
        exact ⟨rfl, rfl⟩
      · rw [if_neg h2] at h ⊢
        by_cases h3 : typeOK d = false
        · rw [if_pos h3]
          exact ⟨rfl, rfl⟩
        · rw [if_neg h3] at h ⊢
          rw [saveCore_not400] at h
          exact Bool.noConfusion h
  | some .jNull => exact so_nondict_pure decode config .jNull (fun d hd => JVal.noConfusion hd)
  | some (.jBool x) => exact so_nondict_pure decode config _ (fun d hd => JVal.noConfusion hd)
  | some (.jInt x) => exact so_nondict_pure decode config _ (fun d hd => JVal.noConfusion hd)
  | some (.jStr x) => exact so_nondict_pure decode config _ (fun d hd => JVal.noConfusion hd)
  | some (.jList x) => exact so_nondict_pure decode config _ (fun d hd => JVal.noConfusion hd)


/-- For a dict body, `noItemName` is the complement of the `itemName`
truthiness guard. -/
theorem noItemName_dict (d : List (Str × JVal)) :
    noItemName (.jDict d) = !truthy (dictGetD d "itemName".toList .jNull) := rfl

/-- For a dict body, `badItemType` is the complement of `typeOK`. -/
theorem badItemType_dict (d : List (Str × JVal)) :
    badItemType (.jDict d) = !typeOK d := by
  have h1 : badItemType (.jDict d) =
      (match dictGetD d "itemType".toList (.jStr "objects".toList) with
        | JVal.jStr ts => !(ts == "objects".toList || ts == "backgrounds".toList)
        | _ => true) := rfl
  have h2 : typeOK d =
      (match dictGetD d "itemType".toList (.jStr "objects".toList) with
        | JVal.jStr ts => ts == "objects".toList || ts == "backgrounds".toList
        | _ => false) := rfl
  rw [h1, h2]
  cases hmt : dictGetD d "itemType".toList (.jStr "objects".toList) <;> rfl

/-- A falsy dict is the empty dict. -/
theorem truthy_dict_false {d : List (Str × JVal)} (h : truthy (JVal.jDict d) = false) :
    d = [] := by
  cases d with
  | nil => rfl
  | cons kv rest => simp [truthy] at h

/-! ## Claim C5: the signature-move damage table -/

/-- C5, counterexample: a record whose name is `"None"` draws the
placeholder, not the damage table, so the claim does not hold for every
signature-move record. -/
theorem sig_move_c5_counterexample :
    draw_signature_move_card
        (some ⟨"None".toList, none, none, none, none, none, none⟩) ≠
      SigOutput.table
        (sigMoveRows ⟨"None".toList, none, none, none, none, none, none⟩) := by
  decide

/-- C5, amended: for every signature-move record whose name is nonempty and
not `"no signature"` or `"none"` case-insensitively (v4's placeholder
guards), the drawn table is the fixed six-row list High Guard, Falling
Swing, Thrust, Sweeping Cut, Rising Attack, Low Guard, each paired with the
rendering of that move's damage field (`str(damage)`, or `∅` when the field
is absent). -/
theorem draw_signature_move_card_c5 (m : SigMove) (h1 : m.name ≠ [])
    (h2 : lowerPy m.name ≠ "no signature".toList)
    (h3 : lowerPy m.name ≠ "none".toList) :
    draw_signature_move_card (some m) = SigOutput.table
      [("High Guard".toList, damage_text m.highGuardDamage),
       ("Falling Swing".toList, damage_text m.fallingSwingDamage),
       ("Thrust".toList, damage_text m.thrustDamage),
       ("Sweeping Cut".toList, damage_text m.sweepingCutDamage),
       ("Rising Attack".toList, damage_text m.risingAttackDamage),
       ("Low Guard".toList, damage_text m.lowGuardDamage)] := by
  have hred : draw_signature_move_card (some m) =
      if m.name = [] then SigOutput.placeholder
      else if lowerPy m.name = "no signature".toList ∨ lowerPy m.name = "none".toList then
        SigOutput.placeholder
      else SigOutput.table (sigMoveRows m) := rfl
  rw [hred, if_neg h1, if_neg (by rintro (h | h); exact h2 h; exact h3 h)]
  rfl

/-- C5, witness: the amended theorem at a concrete record. -/
theorem draw_signature_move_card_c5_witness :
    draw_signature_move_card
        (some ⟨"Smash".toList, some 3, none, some 5, some 1, none, some 2⟩) =
      SigOutput.table
        [("High Guard".toList, damage_text (some 3)),
         ("Falling Swing".toList, damage_text none),
         ("Thrust".toList, damage_text (some 5)),
         ("Sweeping Cut".toList, damage_text (some 1)),
         ("Rising Attack".toList, damage_text none),
         ("Low Guard".toList, damage_text (some 2))] :=
  draw_signature_move_card_c5
    ⟨"Smash".toList, some 3, none, some 5, some 1, none, some 2⟩
    (by decide) (by decide) (by decide)

/-! ## Claim C6: the 400 paths of `POST /api/save` -/

/-- C6, counterexample: a truthy JSON body that is not an object (here the
array `[1]`) carries no `itemName`, so by the claim the handler should
return 400; instead `data.get` raises an `AttributeError` (HTTP 500). -/
theorem save_overlay_c6_counterexample :
    noItemName (.jList [.jInt 1]) = true ∧
    (save_overlay (fun s => some s) (some (.jList [.jInt 1]))
        defaultConfig).1.is400 = false := by
  constructor
  · rfl
  · rfl

/-- C6, amended: restricted to requests whose JSON body, when present, is a
JSON object (a truthy non-object body raises an `AttributeError` instead,
see the counterexample), the handler returns 400 exactly when there is no
body, no truthy `itemName`, or an `itemType` other than
`"objects"`/`"backgrounds"`; and on every 400 (for arbitrary bodies) it
returns before writing: the stored config is unchanged and no overlay file
is written. -/
theorem save_overlay_c6 (decode : Str → Option Str) (body : Option JVal)
    (config : JVal) (hbody : body = none ∨ ∃ d, body = some (.jDict d)) :
    ((save_overlay decode body config).1.is400 = true ↔
      (body = none ∨ ∃ b, body = some b ∧
        (noItemName b = true ∨ badItemType b = true))) ∧
    ((save_overlay decode body config).1.is400 = true →
      (save_overlay decode body config).2.1 = config ∧
      (save_overlay decode body config).2.2 = []) := by
  refine ⟨?_, save_overlay_400_pure decode body config⟩
  rcases hbody with rfl | ⟨d, rfl⟩
  · exact ⟨fun _ => Or.inl rfl, fun _ => rfl⟩
  · rw [save_overlay_is400_iff]
    constructor
    · rintro (h | h | h)
      · refine Or.inr ⟨_, rfl, Or.inl ?_⟩
        rw [truthy_dict_false h]
        rfl
      · exact Or.inr ⟨_, rfl, Or.inl (by rw [noItemName_dict, h]; rfl)⟩
      · exact Or.inr ⟨_, rfl, Or.inr (by rw [badItemType_dict, h]; rfl)⟩
    · rintro (h | ⟨b, hb, hcase⟩)
      · exact Option.noConfusion h
      · have hb' : b = JVal.jDict d := by
          injection hb with hb'
          exact hb'.symm
        subst hb'
        rcases hcase with h | h
        · rw [noItemName_dict] at h
          right
          left
          revert h
          cases truthy (dictGetD d "itemName".toList .jNull) <;> simp
        · rw [badItemType_dict] at h
          right
          right
          revert h
          cases typeOK d <;> simp

/-- C6, witness: the amended theorem for the empty-object body `{}`
(falsy, hence a 400 with nothing written). -/
theorem save_overlay_c6_witness :
    ((some (JVal.jDict []) : Option JVal) = none ∨
      ∃ d, (some (JVal.jDict []) : Option JVal) = some (.jDict d)) ∧
    (((save_overlay (fun s => some s) (some (.jDict [])) defaultConfig).1.is400 = true ↔
      ((some (JVal.jDict []) : Option JVal) = none ∨
        ∃ b, (some (JVal.jDict []) : Option JVal) = some b ∧
          (noItemName b = true ∨ badItemType b = true))) ∧
    ((save_overlay (fun s => some s) (some (.jDict [])) defaultConfig).1.is400 = true →
      (save_overlay (fun s => some s) (some (.jDict [])) defaultConfig).2.1 = defaultConfig ∧
      (save_overlay (fun s => some s) (some (.jDict [])) defaultConfig).2.2 = [])) :=
  ⟨Or.inr ⟨[], rfl⟩,
   save_overlay_c6 (fun s => some s) (some (.jDict [])) defaultConfig (Or.inr ⟨[], rfl⟩)⟩


/-! ## Inversion lemmas for successful saves -/

theorem dictGet_dictSet_self (kvs : List (Str × JVal)) (k : Str) (v : JVal) :
    dictGet (dictSet kvs k v) k = some v := by
  induction kvs with
  | nil =>
    show dictGet [(k, v)] k = some v
    simp [dictGet, List.find?]
  | cons kv rest ih =>
    obtain ⟨k0, v0⟩ := kv
    have hset : dictSet ((k0, v0) :: rest) k v =
        if k0 = k then (k, v) :: rest else (k0, v0) :: dictSet rest k v := rfl
    by_cases hk : k0 = k
    · rw [hset, if_pos hk]
      simp [dictGet, List.find?]
    · rw [hset, if_neg hk]
      have hfind : dictGet ((k0, v0) :: dictSet rest k v) k =
          dictGet (dictSet rest k v) k := by
        unfold dictGet
        rw [List.find?_cons_of_neg]
        simp [hk]
      rw [hfind]
      exact ih

theorem overlayWrite_some_true {decode : Str → Option Str} {od : JVal} {fn : Str}
    {writes : List (Str × Str)} (htr : truthy od = true)
    (h : overlayWrite decode od fn = some writes) :
    ∃ s bytes, od = .jStr s ∧ decode (commaPayload s) = some bytes ∧
      writes = [(fn, bytes)] := by
  unfold overlayWrite at h
  rw [if_pos htr] at h
  cases od with
  | jStr s =>
    dsimp only at h
    cases hd : decode (commaPayload s) with
    | some bytes =>
      rw [hd] at h
      refine ⟨s, bytes, rfl, hd, ?_⟩
      injection h with h2
      exact h2.symm
    | none =>
      rw [hd] at h
      exact Option.noConfusion h
  | jNull => exact Option.noConfusion h
  | jBool b => exact Option.noConfusion h
  | jInt n => exact Option.noConfusion h
  | jList xs => exact Option.noConfusion h
  | jDict kvs => exact Option.noConfusion h

theorem overlayWrite_some_false {decode : Str → Option Str} {od : JVal} {fn : Str}
    {writes : List (Str × Str)} (htr : truthy od = false)
    (h : overlayWrite decode od fn = some writes) : writes = [] := by
  unfold overlayWrite at h
  rw [if_neg (by simp [htr])] at h
  injection h with h2
  exact h2.symm

theorem typeOK_spec {d : List (Str × JVal)} (h : typeOK d = true) :
    ∃ ts, dictGetD d "itemType".toList (.jStr "objects".toList) = .jStr ts ∧
      (ts = "objects".toList ∨ ts = "backgrounds".toList) ∧ tsOf d = ts := by
  unfold typeOK at h
  unfold tsOf
  cases hmt : dictGetD d "itemType".toList (.jStr "objects".toList) with
  | jStr ts =>
    rw [hmt] at h
    simp at h
    refine ⟨ts, rfl, ?_, rfl⟩
    rcases h with h | h
    · exact Or.inl h
    · exact Or.inr h
  | jNull => rw [hmt] at h; exact Bool.noConfusion h
  | jBool b => rw [hmt] at h; exact Bool.noConfusion h
  | jInt n => rw [hmt] at h; exact Bool.noConfusion h
  | jList xs => rw [hmt] at h; exact Bool.noConfusion h
  | jDict kvs => rw [hmt] at h; exact Bool.noConfusion h

theorem updateConfig_some {config : JVal} {ts nameS : Str} {entry newCfg : JVal}
    (h : updateConfig config ts nameS entry = some newCfg) :
    ∃ kvs sub, newCfg = .jDict kvs ∧ dictGet kvs ts = some (.jDict sub) ∧
      dictGet sub nameS = some entry := by
  unfold updateConfig at h
  cases config with
  | jDict cfg0 =>
    dsimp only at h
    generalize hc1 : (if (dictGet cfg0 ts).isNone then dictSet cfg0 ts (.jDict []) else cfg0) = cfg1 at h
    cases hsub : dictGet cfg1 ts with
    | none => rw [hsub] at h; exact Option.noConfusion h
    | some v =>
      rw [hsub] at h
      cases v with
      | jDict sub =>
        injection h with h2
        refine ⟨dictSet cfg1 ts (.jDict (dictSet sub nameS entry)), dictSet sub nameS entry,
          h2.symm, dictGet_dictSet_self cfg1 ts _, dictGet_dictSet_self sub nameS entry⟩
      | jNull => exact Option.noConfusion h
      | jBool b => exact Option.noConfusion h
      | jInt n => exact Option.noConfusion h
      | jStr s => exact Option.noConfusion h
      | jList xs => exact Option.noConfusion h
  | jNull => exact Option.noConfusion h
  | jBool b => exact Option.noConfusion h
  | jInt n => exact Option.noConfusion h
  | jStr s => exact Option.noConfusion h
  | jList xs => exact Option.noConfusion h

theorem saveCore_200 {decode : Str → Option Str} {d : List (Str × JVal)} {config : JVal}
    {op : Option Str} {entry cfg2 : JVal} {writes : List (Str × Str)}
    (h : saveCore decode d config = (.resp200 op entry, cfg2, writes)) :
    ∃ nameS, dictGetD d "itemName".toList .jNull = .jStr nameS ∧
      entry = mkEntry d (pyStem nameS ++ "_overlay.png".toList) ∧
      overlayWrite decode (dictGetD d "overlayData".toList .jNull)
          (pyStem nameS ++ "_overlay.png".toList) = some writes ∧
      updateConfig config (tsOf d) nameS entry = some cfg2 ∧
      op = (if truthy (dictGetD d "overlayData".toList .jNull) = true then
        some ("/api/image/overlays/".toList ++ (pyStem nameS ++ "_overlay.png".toList))
      else none) := by
  unfold saveCore at h
  cases hname : dictGetD d "itemName".toList .jNull with
  | jStr nameS =>
    rw [hname] at h
    dsimp only at h
    refine ⟨nameS, rfl, ?_⟩
    cases hw : overlayWrite decode (dictGetD d "overlayData".toList .jNull)
        (pyStem nameS ++ "_overlay.png".toList) with
    | none =>
      rw [hw] at h
      simp only [Prod.mk.injEq] at h
      exact absurd h.1 (by intro hx; cases hx)
    | some writes0 =>
      rw [hw] at h
      cases hu : updateConfig config (tsOf d)
          nameS (mkEntry d (pyStem nameS ++ "_overlay.png".toList)) with
      | none =>
        rw [hu] at h
        simp only [Prod.mk.injEq] at h
        exact absurd h.1 (by intro hx; cases hx)
      | some newCfg =>
        rw [hu] at h
        simp only [Prod.mk.injEq] at h
        obtain ⟨hresp, hcfg, hwr⟩ := h
        injection hresp with hop hentry
        subst hop
        subst hentry
        subst hcfg
        subst hwr
        exact ⟨rfl, rfl, hu, rfl⟩
  | jNull =>
    rw [hname] at h
    simp only [Prod.mk.injEq] at h
    exact absurd h.1 (by intro hx; cases hx)
  | jBool b =>
    rw [hname] at h
    simp only [Prod.mk.injEq] at h
    exact absurd h.1 (by intro hx; cases hx)
  | jInt n =>
    rw [hname] at h
    simp only [Prod.mk.injEq] at h
    exact absurd h.1 (by intro hx; cases hx)
  | jList xs =>
    rw [hname] at h
    simp only [Prod.mk.injEq] at h
    exact absurd h.1 (by intro hx; cases hx)
  | jDict kvs =>
    rw [hname] at h
    simp only [Prod.mk.injEq] at h
    exact absurd h.1 (by intro hx; cases hx)


theorem so_nondict_eq (decode : Str → Option Str) (config : JVal) (b : JVal)
    (hb : ∀ d, b ≠ .jDict d) :
    save_overlay decode (some b) config =
      if truthy b = false then (.resp400 "No data provided".toList, config, [])
      else (.resp500, config, []) := by
  cases b with
  | jDict d => exact absurd rfl (hb d)
  | jNull => rfl
  | jBool x => rfl
  | jInt x => rfl
  | jStr x => rfl
  | jList x => rfl

/-! ## Claim C7: successful `POST /api/save` -/

/-- C7, counterexample: the handler decodes `overlay_data.split(',')[1]`,
the segment between the first and second commas, not everything after the
first comma as the claim describes: for the payload `"xxxx,yyyy,zzzz"` (and
a decoder modelled as the identity) the bytes written come from `"yyyy"`,
whereas the claim's reading would decode `"yyyy,zzzz"`. -/
theorem save_overlay_c7_counterexample :
    (save_overlay (fun s => some s)
        (some (.jDict [("itemName".toList, .jStr "rock.png".toList),
                       ("overlayData".toList, .jStr "xxxx,yyyy,zzzz".toList)]))
        defaultConfig).2.2 =
      [("rock_overlay.png".toList, "yyyy".toList)] ∧
    (fun s => (some s : Option Str)) (dropThroughComma "xxxx,yyyy,zzzz".toList) =
      some "yyyy,zzzz".toList ∧
    "yyyy".toList ≠ "yyyy,zzzz".toList := by
  refine ⟨?_, ?_, ?_⟩
  · rfl
  · rfl
  · decide

/-- C7, amended: every successful save comes from an object body with a
string `itemName` and a valid `itemType`; the recorded entry is a dict with
exactly the five keys `overlay`, `overlayWidth`, `overlayHeight`, `flying`
and `colors`, where `overlay` is `"<stem>_overlay.png"` when overlay data
was provided and `null` otherwise; the entry is stored in the new config
under `[itemType][itemName]`; and when overlay data is provided, the
decoded `split(',')[1]` payload (not the whole remainder after the first
comma) is written to `overlays/<stem>_overlay.png`. -/
theorem save_overlay_c7 (decode : Str → Option Str) (body : Option JVal) (config : JVal)
    (op : Option Str) (entry cfg2 : JVal) (writes : List (Str × Str))
    (h : save_overlay decode body config = (.resp200 op entry, cfg2, writes)) :
    ∃ d nameS ts,
      body = some (.jDict d) ∧
      dictGetD d "itemName".toList .jNull = .jStr nameS ∧
      dictGetD d "itemType".toList (.jStr "objects".toList) = .jStr ts ∧
      (ts = "objects".toList ∨ ts = "backgrounds".toList) ∧
      entry = .jDict
        [("overlay".toList,
           if truthy (dictGetD d "overlayData".toList .jNull) = true then
             .jStr (pyStem nameS ++ "_overlay.png".toList)
           else .jNull),
         ("overlayWidth".toList, dictGetD d "overlayWidth".toList (.jInt 400)),
         ("overlayHeight".toList, dictGetD d "overlayHeight".toList (.jInt 400)),
         ("flying".toList, dictGetD d "flying".toList (.jBool false)),
         ("colors".toList, dictGetD d "colors".toList (.jList []))] ∧
      (∃ kvs sub, cfg2 = .jDict kvs ∧ dictGet kvs ts = some (.jDict sub) ∧
        dictGet sub nameS = some entry) ∧
      (truthy (dictGetD d "overlayData".toList .jNull) = true →
        ∃ od bytes, dictGetD d "overlayData".toList .jNull = .jStr od ∧
          decode (commaPayload od) = some bytes ∧
          writes = [(pyStem nameS ++ "_overlay.png".toList, bytes)] ∧
          op = some ("/api/image/overlays/".toList ++
            (pyStem nameS ++ "_overlay.png".toList))) ∧
      (truthy (dictGetD d "overlayData".toList .jNull) = false →
        writes = [] ∧ op = none) := by
  match body with
  | none =>
    have hred : save_overlay decode none config =
        (.resp400 "No data provided".toList, config, []) := rfl
    rw [hred] at h
    simp only [Prod.mk.injEq] at h
    exact absurd h.1 (by intro hx; cases hx)
  | some (.jDict d) =>
    rw [so_dict] at h
    by_cases h1 : truthy (JVal.jDict d) = false
    · rw [if_pos h1] at h
      simp only [Prod.mk.injEq] at h
      exact absurd h.1 (by intro hx; cases hx)
    · rw [if_neg h1] at h
      by_cases h2 : truthy (dictGetD d "itemName".toList .jNull) = false
      · rw [if_pos h2] at h
        simp only [Prod.mk.injEq] at h
        exact absurd h.1 (by intro hx; cases hx)
      · rw [if_neg h2] at h
        by_cases h3 : typeOK d = false
        · rw [if_pos h3] at h
          simp only [Prod.mk.injEq] at h
          exact absurd h.1 (by intro hx; cases hx)
        · rw [if_neg h3] at h
          have h3' : typeOK d = true := by
            revert h3
            cases typeOK d <;> simp
          obtain ⟨nameS, hname, hentry, hwrite, hupdate, hop⟩ := saveCore_200 h
          obtain ⟨ts, hts, htsok, htseq⟩ := typeOK_spec h3'
          obtain ⟨kvs, sub, hcfg2, hkvs, hsub⟩ := updateConfig_some hupdate
          refine ⟨d, nameS, ts, rfl, hname, hts, htsok, ?_, ?_, ?_, ?_⟩
          · rw [hentry]
            rfl
          · rw [← htseq]
            exact ⟨kvs, sub, hcfg2, hkvs, hsub⟩
          · intro htr
            obtain ⟨od, bytes, hod, hdec, hwr⟩ := overlayWrite_some_true htr hwrite
            refine ⟨od, bytes, hod, hdec, hwr, ?_⟩
            rw [hop, if_pos htr]
          · intro hfa
            refine ⟨overlayWrite_some_false hfa hwrite, ?_⟩
            rw [hop, if_neg (by intro hx; rw [hfa] at hx; exact Bool.noConfusion hx)]
  | some .jNull =>
    rw [so_nondict_eq decode config _ (fun d hd => JVal.noConfusion hd)] at h
    by_cases htr : truthy JVal.jNull = false
    · rw [if_pos htr] at h
      simp only [Prod.mk.injEq] at h
      exact absurd h.1 (by intro hx; cases hx)
    · rw [if_neg htr] at h
      simp only [Prod.mk.injEq] at h
      exact absurd h.1 (by intro hx; cases hx)
  | some (.jBool x) =>
    rw [so_nondict_eq decode config _ (fun d hd => JVal.noConfusion hd)] at h
    by_cases htr : truthy (JVal.jBool x) = false
    · rw [if_pos htr] at h
      simp only [Prod.mk.injEq] at h
      exact absurd h.1 (by intro hx; cases hx)
    · rw [if_neg htr] at h
      simp only [Prod.mk.injEq] at h
      exact absurd h.1 (by intro hx; cases hx)
  | some (.jInt x) =>
    rw [so_nondict_eq decode config _ (fun d hd => JVal.noConfusion hd)] at h
    by_cases htr : truthy (JVal.jInt x) = false
    · rw [if_pos htr] at h
      simp only [Prod.mk.injEq] at h
      exact absurd h.1 (by intro hx; cases hx)
    · rw [if_neg htr] at h
      simp only [Prod.mk.injEq] at h
      exact absurd h.1 (by intro hx; cases hx)
  | some (.jStr x) =>
    rw [so_nondict_eq decode config _ (fun d hd => JVal.noConfusion hd)] at h
    by_cases htr : truthy (JVal.jStr x) = false
    · rw [if_pos htr] at h
      simp only [Prod.mk.injEq] at h
      exact absurd h.1 (by intro hx; cases hx)
    · rw [if_neg htr] at h
      simp only [Prod.mk.injEq] at h
      exact absurd h.1 (by intro hx; cases hx)
  | some (.jList x) =>
    rw [so_nondict_eq decode config _ (fun d hd => JVal.noConfusion hd)] at h
    by_cases htr : truthy (JVal.jList x) = false
    · rw [if_pos htr] at h
      simp only [Prod.mk.injEq] at h
      exact absurd h.1 (by intro hx; cases hx)
    · rw [if_neg htr] at h
      simp only [Prod.mk.injEq] at h
      exact absurd h.1 (by intro hx; cases hx)

/-- C7, witness: the amended theorem at a concrete successful save
without overlay data. -/
theorem save_overlay_c7_witness :
    ∃ d nameS ts,
      (some (JVal.jDict [("itemName".toList, .jStr "rock.png".toList)]) : Option JVal) =
        some (.jDict d) ∧
      dictGetD d "itemName".toList .jNull = .jStr nameS ∧
      dictGetD d "itemType".toList (.jStr "objects".toList) = .jStr ts ∧
      (ts = "objects".toList ∨ ts = "backgrounds".toList) ∧
      JVal.jDict [("overlay".toList, .jNull),
         ("overlayWidth".toList, .jInt 400),
         ("overlayHeight".toList, .jInt 400),
         ("flying".toList, .jBool false),
         ("colors".toList, .jList [])] = .jDict
        [("overlay".toList,
           if truthy (dictGetD d "overlayData".toList .jNull) = true then
             .jStr (pyStem nameS ++ "_overlay.png".toList)
           else .jNull),
         ("overlayWidth".toList, dictGetD d "overlayWidth".toList (.jInt 400)),
         ("overlayHeight".toList, dictGetD d "overlayHeight".toList (.jInt 400)),
         ("flying".toList, dictGetD d "flying".toList (.jBool false)),
         ("colors".toList, dictGetD d "colors".toList (.jList []))] ∧
      (∃ kvs sub,
        (JVal.jDict [("objects".toList,
            .jDict [("rock.png".toList,
              .jDict [("overlay".toList, .jNull),
                ("overlayWidth".toList, .jInt 400),
                ("overlayHeight".toList, .jInt 400),
                ("flying".toList, .jBool false),
                ("colors".toList, .jList [])])]),
          ("backgrounds".toList, .jDict [])]) = .jDict kvs ∧
        dictGet kvs ts = some (.jDict sub) ∧
        dictGet sub nameS = some (JVal.jDict [("overlay".toList, .jNull),
          ("overlayWidth".toList, .jInt 400),
          ("overlayHeight".toList, .jInt 400),
          ("flying".toList, .jBool false),
          ("colors".toList, .jList [])])) ∧
      (truthy (dictGetD d "overlayData".toList .jNull) = true →
        ∃ od bytes, dictGetD d "overlayData".toList .jNull = .jStr od ∧
          (fun s => (some s : Option Str)) (commaPayload od) = some bytes ∧
          ([] : List (Str × Str)) = [(pyStem nameS ++ "_overlay.png".toList, bytes)] ∧
          (none : Option Str) = some ("/api/image/overlays/".toList ++
            (pyStem nameS ++ "_overlay.png".toList))) ∧
      (truthy (dictGetD d "overlayData".toList .jNull) = false →
        ([] : List (Str × Str)) = [] ∧ (none : Option Str) = none) :=
  save_overlay_c7 (fun s => some s)
    (some (.jDict [("itemName".toList, .jStr "rock.png".toList)]))
    defaultConfig none
    (.jDict [("overlay".toList, .jNull),
       ("overlayWidth".toList, .jInt 400),
       ("overlayHeight".toList, .jInt 400),
       ("flying".toList, .jBool false),
       ("colors".toList, .jList [])])
    (.jDict [("objects".toList,
        .jDict [("rock.png".toList,
          .jDict [("overlay".toList, .jNull),
            ("overlayWidth".toList, .jInt 400),
            ("overlayHeight".toList, .jInt 400),
            ("flying".toList, .jBool false),
            ("colors".toList, .jList [])])]),
      ("backgrounds".toList, .jDict [])])
    [] (by rfl)

/-! ## Claim C8: `GET /api/overlay/<item_type>/<item_name>` -/

/-- C8, confirmed (for well-formed configs, `cfgWF`, which everything this
application writes satisfies): the endpoint reports `exists=true` with the
overlay's serving path exactly when the config entry names an overlay file
and that file exists in the overlays directory; a missing entry, an entry
without an overlay filename, or a missing file all yield `exists=false`. -/
theorem get_overlay_c8 (config : JVal) (fsExists : Str → Bool) (t n : Str)
    (h : cfgWF config t n = true) :
    (∀ fn, overlayNameOf config t n = some fn → fn ≠ [] → fsExists fn = true →
       get_overlay config fsExists t n =
         .exTrue ("/api/image/overlays/".toList ++ fn)) ∧
    (overlayNameOf config t n = none → get_overlay config fsExists t n = .exFalse) ∧
    (∀ fn, overlayNameOf config t n = some fn → fn = [] →
       get_overlay config fsExists t n = .exFalse) ∧
    (∀ fn, overlayNameOf config t n = some fn → fsExists fn = false →
       get_overlay config fsExists t n = .exFalse) := by
  cases config with
  | jDict cfg =>
    unfold cfgWF at h
    dsimp only at h
    cases hic : dictGetD cfg t (.jDict []) with
    | jDict icd =>
      rw [hic] at h
      dsimp only at h
      cases hen : dictGetD icd n (.jDict []) with
      | jDict ekvs =>
        rw [hen] at h
        dsimp only at h
        have hname : overlayNameOf (.jDict cfg) t n =
            (match dictGetD ekvs "overlay".toList .jNull with
              | JVal.jStr fn => some fn
              | _ => none) := by
          unfold overlayNameOf
          dsimp only
          rw [hic]
          dsimp only
          rw [hen]
        have hget : get_overlay (.jDict cfg) fsExists t n =
            (if truthy (dictGetD ekvs "overlay".toList .jNull) = false then .exFalse
             else match dictGetD ekvs "overlay".toList .jNull with
              | JVal.jStr fn =>
                if fsExists fn then .exTrue ("/api/image/overlays/".toList ++ fn)
                else .exFalse
              | _ => .oresp500) := by
          unfold get_overlay
          dsimp only
          rw [hic]
          dsimp only
          rw [hen]
        cases hov : dictGetD ekvs "overlay".toList .jNull with
        | jNull =>
          rw [hov] at hname hget
          refine ⟨?_, ?_, ?_, ?_⟩
          · intro fn hfn
            exact absurd hfn (by rw [hname]; intro hx; exact Option.noConfusion hx)
          · intro _
            rw [hget]
            rfl
          · intro fn hfn
            rw [hname] at hfn
            exact absurd hfn (by intro hx; exact Option.noConfusion hx)
          · intro fn hfn
            rw [hname] at hfn
            exact absurd hfn (by intro hx; exact Option.noConfusion hx)
        | jStr fn0 =>
          rw [hov] at hname hget
          refine ⟨?_, ?_, ?_, ?_⟩
          · intro fn hfn hne hfs
            rw [hname] at hfn
            injection hfn with hfn
            subst hfn
            have htr : truthy (JVal.jStr fn0) = true := by
              cases hfn0 : fn0 with
              | nil => exact absurd hfn0 hne
              | cons a r => rfl
            rw [hget, if_neg (by rw [htr]; intro hx; exact Bool.noConfusion hx)]
            dsimp only
            rw [if_pos hfs]
          · intro hcon
            rw [hname] at hcon
            exact Option.noConfusion hcon
          · intro fn hfn hemp
            rw [hname] at hfn
            injection hfn with hfn
            subst hfn
            subst hemp
            rw [hget]
            rfl
          · intro fn hfn hfs
            rw [hname] at hfn
            injection hfn with hfn
            subst hfn
            by_cases hemp : fn0 = []
            · rw [hemp] at hget
              rw [hget]
              rfl
            · have htr : truthy (JVal.jStr fn0) = true := by
                cases hfn0 : fn0 with
                | nil => exact absurd hfn0 hemp
                | cons a r => rfl
              rw [hget, if_neg (by rw [htr]; intro hx; exact Bool.noConfusion hx)]
              dsimp only
              rw [if_neg (by rw [hfs]; intro hx; exact Bool.noConfusion hx)]
        | jBool b => rw [hov] at h; exact Bool.noConfusion h
        | jInt m => rw [hov] at h; exact Bool.noConfusion h
        | jList xs => rw [hov] at h; exact Bool.noConfusion h
        | jDict kvs => rw [hov] at h; exact Bool.noConfusion h
      | jNull => rw [hen] at h; exact Bool.noConfusion h
      | jBool b => rw [hen] at h; exact Bool.noConfusion h
      | jInt m => rw [hen] at h; exact Bool.noConfusion h
      | jStr s => rw [hen] at h; exact Bool.noConfusion h
      | jList xs => rw [hen] at h; exact Bool.noConfusion h
    | jNull => rw [hic] at h; exact Bool.noConfusion h
    | jBool b => rw [hic] at h; exact Bool.noConfusion h
    | jInt m => rw [hic] at h; exact Bool.noConfusion h
    | jStr s => rw [hic] at h; exact Bool.noConfusion h
    | jList xs => rw [hic] at h; exact Bool.noConfusion h
  | jNull => exact Bool.noConfusion h
  | jBool b => exact Bool.noConfusion h
  | jInt m => exact Bool.noConfusion h
  | jStr s => exact Bool.noConfusion h
  | jList xs => exact Bool.noConfusion h

/-- C8, witness: the theorem at a concrete config and file system. -/
theorem get_overlay_c8_witness :
    cfgWF (.jDict [("objects".toList,
        .jDict [("rock.png".toList,
          .jDict [("overlay".toList, .jStr "rock_overlay.png".toList)])])])
      "objects".toList "rock.png".toList = true ∧
    ((∀ fn, overlayNameOf (.jDict [("objects".toList,
          .jDict [("rock.png".toList,
            .jDict [("overlay".toList, .jStr "rock_overlay.png".toList)])])])
          "objects".toList "rock.png".toList = some fn → fn ≠ [] →
        (fun s => s == "rock_overlay.png".toList) fn = true →
        get_overlay (.jDict [("objects".toList,
            .jDict [("rock.png".toList,
              .jDict [("overlay".toList, .jStr "rock_overlay.png".toList)])])])
          (fun s => s == "rock_overlay.png".toList)
          "objects".toList "rock.png".toList =
          .exTrue ("/api/image/overlays/".toList ++ fn)) ∧
      (overlayNameOf (.jDict [("objects".toList,
          .jDict [("rock.png".toList,
            .jDict [("overlay".toList, .jStr "rock_overlay.png".toList)])])])
          "objects".toList "rock.png".toList = none →
        get_overlay (.jDict [("objects".toList,
            .jDict [("rock.png".toList,
              .jDict [("overlay".toList, .jStr "rock_overlay.png".toList)])])])
          (fun s => s == "rock_overlay.png".toList)
          "objects".toList "rock.png".toList = .exFalse) ∧
      (∀ fn, overlayNameOf (.jDict [("objects".toList,
          .jDict [("rock.png".toList,
            .jDict [("overlay".toList, .jStr "rock_overlay.png".toList)])])])
          "objects".toList "rock.png".toList = some fn → fn = [] →
        get_overlay (.jDict [("objects".toList,
            .jDict [("rock.png".toList,
              .jDict [("overlay".toList, .jStr "rock_overlay.png".toList)])])])
          (fun s => s == "rock_overlay.png".toList)
          "objects".toList "rock.png".toList = .exFalse) ∧
      (∀ fn, overlayNameOf (.jDict [("objects".toList,
          .jDict [("rock.png".toList,
            .jDict [("overlay".toList, .jStr "rock_overlay.png".toList)])])])
          "objects".toList "rock.png".toList = some fn →
        (fun s => s == "rock_overlay.png".toList) fn = false →
        get_overlay (.jDict [("objects".toList,
            .jDict [("rock.png".toList,
              .jDict [("overlay".toList, .jStr "rock_overlay.png".toList)])])])
          (fun s => s == "rock_overlay.png".toList)
          "objects".toList "rock.png".toList = .exFalse)) :=
  ⟨by rfl,
   get_overlay_c8 (.jDict [("objects".toList,
      .jDict [("rock.png".toList,
        .jDict [("overlay".toList, .jStr "rock_overlay.png".toList)])])])
    (fun s => s == "rock_overlay.png".toList)
    "objects".toList "rock.png".toList (by rfl)⟩

/-! ## Claim C9: `load_config` totality and defaults -/

/-- C9, confirmed: `load_config` is total by construction (every exception
of the `try` block is modelled by the `parse`/emptiness fallbacks), and on
a missing file, whitespace-only content, or unparsable JSON it returns the
default `{"objects": {}, "backgrounds": {}}`; consequently the read
endpoints behave exactly as on the default (empty) configuration. -/
theorem load_config_c9 (parse : Str → Option JVal) (file : FileState)
    (h : file = .absent ∨
      ∃ c, file = .present c ∧ (pyStrip c = [] ∨ parse (pyStrip c) = none)) :
    load_config parse file = defaultConfig ∧
    (∀ t n, get_item_config (load_config parse file) t n =
      get_item_config defaultConfig t n) ∧
    (∀ fs t n, get_overlay (load_config parse file) fs t n =
      get_overlay defaultConfig fs t n) := by
  have h1 : load_config parse file = defaultConfig := by
    rcases h with rfl | ⟨c, rfl, hc⟩
    · rfl
    · unfold load_config
      dsimp only
      rcases hc with hc | hc
      · rw [hc]
        simp
      · by_cases hz : pyStrip c = []
        · rw [hz]
          simp
        · rw [if_pos hz, hc]
  exact ⟨h1, fun t n => by rw [h1], fun fs t n => by rw [h1]⟩

/-- C9, witness: a present but unparsable `config.json`. -/
theorem load_config_c9_witness :
    load_config (fun _ => none) (.present "not json".toList) = defaultConfig ∧
    (∀ t n, get_item_config (load_config (fun _ => none) (.present "not json".toList)) t n =
      get_item_config defaultConfig t n) ∧
    (∀ fs t n, get_overlay (load_config (fun _ => none) (.present "not json".toList)) fs t n =
      get_overlay defaultConfig fs t n) :=
  load_config_c9 (fun _ => none) (.present "not json".toList)
    (Or.inr ⟨"not json".toList, rfl, Or.inr rfl⟩)


/-! ## Lemmas about the layout passes and the shrink loop -/

/-- The activated-entry y-increments of the two passes are syntactically
identical. -/
theorem activatedOne_eq : measureActivatedOne = drawActivatedOne := rfl

/-- The y-projection of the draw pass's (y, last_w, last_h) passive line
fold is the plain y fold of the measurement pass. -/
theorem passive_triple_fst (M : Metrics) (f : Font) :
    ∀ (lines : List Str) (y w0 h0 : Int),
      (lines.foldl
        (fun (st : Int × Int × Int) line =>
          (st.1 + (M line f).h + 2, (M line f).w, (M line f).h)) (y, w0, h0)).1 =
        linesFoldY M f y lines := by
  intro lines
  induction lines with
  | nil => intro y w0 h0; rfl
  | cons l ls ih =>
    intro y w0 h0
    simp only [List.foldl_cons, linesFoldY] at *
    exact ih (y + (M l f).h + 2) _ _

/-- A passive entry without a once-per tail consumes the same height in
both passes. -/
theorem passiveOne_eq (M : Metrics) (bs : Nat) (area_w : Int) (a : PassiveE)
    (h : a.once_text = []) (y0 : Int) :
    measurePassiveOne M bs area_w a y0 = drawPassiveOne M bs area_w a y0 := by
  simp only [measurePassiveOne, drawPassiveOne, h]
  have hrs : pyRstrip ([] : Str) = [] := rfl
  rw [hrs]
  simp only [ne_eq, not_true_eq_false, if_false, if_neg]
  rw [passive_triple_fst]

theorem passive_fold_eq (M : Metrics) (bs : Nat) (area_w : Int) :
    ∀ (ps : List PassiveE) (y : Int), (∀ p ∈ ps, p.once_text = []) →
      ps.foldl (fun y a => measurePassiveOne M bs area_w a y) y =
        ps.foldl (fun y a => drawPassiveOne M bs area_w a y) y := by
  intro ps
  induction ps with
  | nil => intro y _; rfl
  | cons p ps ih =>
    intro y h
    simp only [List.foldl_cons]
    rw [passiveOne_eq M bs area_w p (h p (List.mem_cons_self p ps)) y]
    exact ih _ (fun q hq => h q (List.mem_cons_of_mem p hq))

/-- Invariant of the shrink loop: on exit the measured height fits or
both sizes are exactly 12, and the sizes never drop below 12. -/
theorem shrinkLoop_spec (m : Nat → Nat → Int) (limit : Int) :
    ∀ ts bs, 12 ≤ ts → 12 ≤ bs →
      (m (shrinkLoop m limit ts bs).1 (shrinkLoop m limit ts bs).2 ≤ limit ∨
        ((shrinkLoop m limit ts bs).1 = 12 ∧ (shrinkLoop m limit ts bs).2 = 12)) ∧
      12 ≤ (shrinkLoop m limit ts bs).1 ∧ 12 ≤ (shrinkLoop m limit ts bs).2 := by
  intro ts bs hts hbs
  induction ts, bs using shrinkLoop.induct m limit with
  | case1 ts bs h =>
    rw [shrinkLoop, if_pos h]
    rcases h with h | h
    · exact ⟨Or.inl h, hts, hbs⟩
    · exact ⟨Or.inr ⟨Nat.le_antisymm h.1 hts, Nat.le_antisymm h.2 hbs⟩, hts, hbs⟩
  | case2 ts bs h ih =>
    rw [shrinkLoop, if_neg h]
    exact ih (Nat.le_max_left _ _) (Nat.le_max_left _ _)

theorem classify_single (ymap : List (Str × YamlDef)) (a : JsonAbility) :
    classify [a] ymap = classifyStep ymap ⟨[], [], []⟩ a := rfl

/-! ## Claim C1: the measurement pass versus the drawing pass -/

/-- Claim C1, counterexample.  For a single arcane ability whose one
outcome reads `"x y"` (value `"X"`, no colours), under metrics in which
every character is `size` wide, at `area_w = 155` with the initial
sizes 24/23, the measurement pass reserves token width 69 (`"X: "`
measured in the regular body font) while the drawing pass advances only
63 (the bold token font two sizes smaller), so the first outcome line
wraps differently and the final y-coordinates disagree (86 vs 61). -/
theorem measure_draw_c1_counterexample :
    measureY unitMetrics (classify [c1ability] []) 0 155 24 23 ≠
      drawY unitMetrics (classify [c1ability] []) 0 0 155 24 23 := by decide

/-- Claim C1 (amended).  The measurement pass agrees with the drawing
pass whenever the classified abilities contain no arcane entries and no
passive entry carries a once-per tail: for every metrics, geometry and
pair of font sizes, the final y computed by `measure(title_size,
body_size)` equals the final y consumed by the drawing pass at those
sizes.  (Arcane token geometry and the once-per tail are measured and
drawn differently, as the counterexample shows.) -/
theorem measure_draw_c1 (M : Metrics) (cl : Classified)
    (area_x area_y area_w : Int) (ts bs : Nat)
    (harc : cl.arcane = [])
    (honce : ∀ p ∈ cl.passive, p.once_text = []) :
    measureY M cl area_y area_w ts bs = drawY M cl area_x area_y area_w ts bs := by
  simp only [measureY, drawY, harc, activatedOne_eq]
  rw [passive_fold_eq M bs area_w cl.passive area_y honce]
  simp

/-- Witness for C1: a passive plus an activated ability, classified and
laid out at a concrete instance. -/
theorem measure_draw_c1_witness :
    measureY unitMetrics (classify [c1passive, c1activated] []) 0 100 24 23 =
      drawY unitMetrics (classify [c1passive, c1activated] []) 7 0 100 24 23 :=
  measure_draw_c1 unitMetrics (classify [c1passive, c1activated] []) 7 0 100 24 23
    (by decide) (by decide)

/-! ## Claim C3: the auto-shrink loop -/

/-- Claim C3.  The auto-shrink loop terminates for every input (the
model `shrinkLoop` is a total function, with termination measure
`(ts-12)+(bs-12)`: each iteration decrements both sizes by 1, clamped
at the minimum 12).  Starting from title size 24 and body size 23, on
exit either the measured height is at most `area_bottom - 2` or both
sizes equal the minimum 12; the sizes used for drawing are always at
least 12. -/
theorem shrink_loop_c3 (M : Metrics) (cl : Classified)
    (area_y area_w area_bottom : Int) :
    (measureY M cl area_y area_w
        (chosenSizes M cl area_y area_w area_bottom).1
        (chosenSizes M cl area_y area_w area_bottom).2 ≤ area_bottom - 2 ∨
      ((chosenSizes M cl area_y area_w area_bottom).1 = 12 ∧
        (chosenSizes M cl area_y area_w area_bottom).2 = 12)) ∧
    12 ≤ (chosenSizes M cl area_y area_w area_bottom).1 ∧
    12 ≤ (chosenSizes M cl area_y area_w area_bottom).2 := by
  unfold chosenSizes
  exact shrinkLoop_spec (fun t b => measureY M cl area_y area_w t b)
    (area_bottom - 2) 24 23 (by omega) (by omega)

/-! ## Claim C4: the YAML override consultation -/

/-- Claim C4, counterexample.  With a YAML definition of type `passive`
present under the normalized key of `"A"`, two JSON abilities named
`"A"` that differ only in their `description` field classify
differently: the fallback branch of `build_from_yaml` takes the
description (and once-per flags) from the JSON object, so the entry is
not built from the YAML fields alone. -/
theorem classify_c4_counterexample :
    lookupYaml c4ymap
        (norm_key (normalize_quotes (c4ability "d1".toList).name)) ≠ none ∧
    (c4ability "d1".toList).name = (c4ability "d2".toList).name ∧
    classify [c4ability "d1".toList] c4ymap ≠
      classify [c4ability "d2".toList] c4ymap := by
  refine ⟨by decide, rfl, by decide⟩

/-- Claim C4 (amended).  Every entry consults the YAML map under
`norm_key` of its normalized name.  When the YAML definition's type is
`activated` or `arcane`, the classified entry is built from the YAML
fields alone, so it does not depend on any JSON field other than the
name; when the YAML definition has any other type, the entry becomes
passive with the YAML `__name` but its description and once-per flags
still come from the JSON object; and when no YAML entry exists under
the key, classification coincides with classification under the empty
map (the JSON fields are used). -/
theorem classify_c4 (ymap : List (Str × YamlDef)) (a a' : JsonAbility) :
    (∀ ydef, lookupYaml ymap (norm_key (normalize_quotes a.name)) = some ydef →
        a.name = a'.name →
        (lowerPy (pyStrip ydef.ytype) = "activated".toList ∨
          lowerPy (pyStrip ydef.ytype) = "arcane".toList) →
        classify [a] ymap = classify [a'] ymap) ∧
    (∀ ydef, lookupYaml ymap (norm_key (normalize_quotes a.name)) = some ydef →
        lowerPy (pyStrip ydef.ytype) ≠ "activated".toList →
        lowerPy (pyStrip ydef.ytype) ≠ "arcane".toList →
        classify [a] ymap =
          ⟨[{ name := ydef.yname
              description := ensure_period (normalize_quotes (jsonDesc a))
              once_text := onceTextOf a.oncePerTurn a.oncePerGame }], [], []⟩) ∧
    (lookupYaml ymap (norm_key (normalize_quotes a.name)) = none →
        classify [a] ymap = classify [a] []) := by
  refine ⟨?_, ?_, ?_⟩
  · intro ydef hlook hname htype
    have hlook' : lookupYaml ymap (norm_key (normalize_quotes a'.name)) = some ydef := by
      rw [← hname]; exact hlook
    rw [classify_single, classify_single]
    simp only [classifyStep, hlook, hlook']
    unfold buildFromYaml
    rcases htype with h | h
    · rw [h]; rfl
    · rw [h]
      have hne : ("arcane".toList : Str) ≠ "activated".toList := by decide
      rw [if_neg hne, if_pos rfl, if_neg hne, if_pos rfl]
  · intro ydef hlook h1 h2
    rw [classify_single]
    simp only [classifyStep, hlook]
    unfold buildFromYaml
    rw [if_neg h1, if_neg h2]
    rfl
  · intro hlook
    rw [classify_single, classify_single]
    simp only [classifyStep, hlook]
    rfl

/-- Witness for C4: the three conclusions at concrete instances — an
`activated`-typed override makes the JSON description irrelevant, a
`passive`-typed override still draws the description from JSON, and a
map without the key behaves like the empty map. -/
theorem classify_c4_witness :
    classify [c4ability "d1".toList] c4ymapAct =
      classify [c4ability "d2".toList] c4ymapAct ∧
    classify [c4ability "d1".toList] c4ymap =
      ⟨[{ name := c4ydef.yname
          description :=
            ensure_period (normalize_quotes (jsonDesc (c4ability "d1".toList)))
          once_text := onceTextOf (c4ability "d1".toList).oncePerTurn
            (c4ability "d1".toList).oncePerGame }], [], []⟩ ∧
    classify [c4ability "d1".toList] c4ymapOther =
      classify [c4ability "d1".toList] [] :=
  ⟨(classify_c4 c4ymapAct (c4ability "d1".toList) (c4ability "d2".toList)).1
      c4ydefAct (by decide) rfl (Or.inl (by decide)),
    (classify_c4 c4ymap (c4ability "d1".toList) (c4ability "d1".toList)).2.1
      c4ydef (by decide) (by decide) (by decide),
    (classify_c4 c4ymapOther (c4ability "d1".toList) (c4ability "d1".toList)).2.2
      (by decide)⟩

end Moonsim
